import Mathlib

/-!
Shallow embedding of the ipmpsc shared-memory ring-buffer channel
(`src/lib.rs`) and proofs about its sender / receiver protocol.

The mapped region is modelled as a `List Nat` of bytes (each byte is read
modulo 256 where its numeric value matters).  The shared header's two
cursors `read` and `write` are `Nat` offsets; all 32-bit arithmetic the
source performs on `u32` values is written with an explicit `% 2 ^ 32`.
Rust slice expressions `&map[a..b]` panic when out of range, so the
corresponding model operations return `Option` and the operations report
an abnormal-termination outcome instead of storing anything.

The process-shared mutex and condition variable are modelled by
instrumentation counters on the state (`locks`, `waits`, `notifies`),
together with counters for the `SeqCst` loads of the two cursors
(`rLoads`, `wLoads`); a `pthread_cond_wait` whose wake-up is modelled
takes the next entry of an explicit interference list describing what the
other processes did to the shared region while the lock was released.
-/

namespace Ipmpsc

/-- Write the bytes `bs` into `mem` starting at offset `off`
(out-of-range positions are silently dropped, as with `List.set`). -/
def writeBytes : List Nat → Nat → List Nat → List Nat
  | mem, _, [] => mem
  | mem, off, b :: bs => writeBytes (mem.set off b) (off + 1) bs

/-- Read `n` bytes from `mem` starting at offset `off` (0 beyond the end). -/
def readBytes : List Nat → Nat → Nat → List Nat
  | _, _, 0 => []
  | mem, off, n + 1 => mem.getD off 0 :: readBytes mem (off + 1) n

/-- Little-endian image of a `u32`, as `bincode` writes it. -/
def encodeU32 (n : Nat) : List Nat :=
  [n % 256, n / 256 % 256, n / 65536 % 256, n / 16777216 % 256]

/-- Little-endian `u32` read from four bytes, as `bincode` decodes it. -/
def decodeU32 (bs : List Nat) : Nat :=
  bs.getD 0 0 % 256 + 256 * (bs.getD 1 0 % 256) + 65536 * (bs.getD 2 0 % 256) +
    16777216 * (bs.getD 3 0 % 256)

/-- `&map[a..b]` as an immutable slice read: `none` models the Rust
out-of-range panic. -/
def sliceRead (mem : List Nat) (a b : Nat) : Option (List Nat) :=
  if b < a then none
  else if mem.length < b then none
  else some (readBytes mem a (b - a))

/-- `serialize_into(&mut map[a..b], bs)`: `none` models the out-of-range
panic of the slice expression (and the codec's size-mismatch failure,
which likewise stores nothing and aborts the operation). -/
def sliceWrite (mem : List Nat) (a b : Nat) (bs : List Nat) : Option (List Nat) :=
  if b < a then none
  else if mem.length < b then none
  else if bs.length ≠ b - a then none
  else some (writeBytes mem a bs)

/-- Static channel configuration: `beginning` is `BEGINNING =
mem::size_of::<Header>()` (platform dependent, hence a parameter) and
`capacity` is the caller-supplied ring size in bytes. -/
structure Config where
  beginning : Nat
  capacity : Nat
deriving DecidableEq

/-- Length of the mapped file, `BEGINNING + size_in_bytes`. -/
def Config.mapLen (c : Config) : Nat := c.beginning + c.capacity

/-- Sanity of a configuration: a nonempty header, and a file length that
fits in a `u32` (the cursors are 32-bit offsets into the file). -/
def Config.wf (c : Config) : Prop := 0 < c.beginning ∧ c.mapLen < 2 ^ 32

/-- The shared region together with instrumentation: `read`/`write` are
the header cursors, `mem` the bytes of the whole mapped file.  `rLoads`
and `wLoads` count the `SeqCst` loads of `read` resp. `write`; `locks`,
`waits` and `notifies` count `pthread_mutex_lock`, `pthread_cond_wait` /
`timedwait` and `pthread_cond_broadcast` calls. -/
structure State where
  read : Nat
  write : Nat
  mem : List Nat
  rLoads : Nat := 0
  wLoads : Nat := 0
  locks : Nat := 0
  waits : Nat := 0
  notifies : Nat := 0
deriving DecidableEq

/-- State after `Header::init` plus the zero-filled fresh backing file:
both cursors are stored as `BEGINNING`. -/
def initState (cfg : Config) : State :=
  { read := cfg.beginning, write := cfg.beginning, mem := List.replicate cfg.mapLen 0 }

/-- `Receiver::seek`: lock the header, store `read = position`,
broadcast (the guard unlocks on scope exit). -/
def seekSt (position : Nat) (st : State) : State :=
  { st with locks := st.locks + 1, read := position, notifies := st.notifies + 1 }

/-- Result of one evaluation of the body of the space-reservation loop in
`Sender::send_0`. -/
inductive IterAction where
  | brk
  | wrapped
  | wait_
  | assertFail
  | panic_
deriving DecidableEq

/-- One iteration of the reservation loop of `Sender::send_0`, for local
write cursor `w`: load `read`; if the message fits, break; if the tail is
too short and `read != BEGINNING`, write a wrap sentinel at `w`, store
`write = BEGINNING` and broadcast (`assert!(write > BEGINNING)` guards
this branch); otherwise wait on the condition variable. -/
def sendIter (cfg : Config) (size : Nat) (wue : Bool) (w : Nat) (st : State) :
    IterAction × State :=
  let r := st.read
  let st := { st with rLoads := st.rLoads + 1 }
  if w = r ∨ (r < w ∧ wue = false) then
    if (w + size + 8) % 2 ^ 32 ≤ cfg.mapLen then (.brk, st)
    else if r ≠ cfg.beginning then
      if cfg.beginning < w then
        match sliceWrite st.mem w ((w + 4) % 2 ^ 32) (encodeU32 0) with
        | none => (.panic_, st)
        | some m =>
            (.wrapped,
              { st with mem := m, write := cfg.beginning, notifies := st.notifies + 1 })
      else (.assertFail, st)
    else (.wait_, st)
  else if (w + size + 8) % 2 ^ 32 ≤ r ∧ wue = false then (.brk, st)
  else (.wait_, st)

/-- Outcome of `Sender::send_0`.  `blocked` marks an execution parked in
`pthread_cond_wait` with no interference left to wake it meaningfully;
`panicked` marks a Rust slice-range panic (or codec size mismatch);
`fuelOut` is a model artifact for exhausted loop fuel. -/
inductive SendOutcome where
  | ok (st : State)
  | zeroSized (st : State)
  | tooLarge (st : State)
  | blocked (w : Nat) (st : State)
  | assertFail (st : State)
  | panicked (st : State)
  | fuelOut (st : State)
deriving DecidableEq

def SendOutcome.state : SendOutcome → State
  | .ok st => st
  | .zeroSized st => st
  | .tooLarge st => st
  | .blocked _ st => st
  | .assertFail st => st
  | .panicked st => st
  | .fuelOut st => st

def SendOutcome.isOk : SendOutcome → Bool
  | .ok _ => true
  | _ => false

def SendOutcome.isZeroSized : SendOutcome → Bool
  | .zeroSized _ => true
  | _ => false

def SendOutcome.isTooLarge : SendOutcome → Bool
  | .tooLarge _ => true
  | _ => false

/-- Committing the frame after the loop breaks at offset `w`: the
little-endian size prefix at `[w, w+4)`, the payload at `[w+4, end)`,
then store `write = end` and broadcast. -/
def writeFrame (payload : List Nat) (w : Nat) (st : State) : SendOutcome :=
  let size := payload.length % 2 ^ 32
  let start := (w + 4) % 2 ^ 32
  match sliceWrite st.mem w start (encodeU32 size) with
  | none => .panicked st
  | some m1 =>
      let e := (start + size) % 2 ^ 32
      match sliceWrite m1 start e payload with
      | none => .panicked { st with mem := m1 }
      | some m2 =>
          .ok { st with mem := m2, write := e, notifies := st.notifies + 1 }

/-- The reservation loop of `Sender::send_0`.  The local cursor `w` is
carried between iterations; a `cond.wait` consumes the next entry of the
interference list `env` (the effect of other processes on the shared
region while the mutex was released inside the wait), and parks the
sender (`blocked`) when no interference is left. -/
def sendLoop (cfg : Config) (payload : List Nat) (wue : Bool) :
    Nat → Nat → List (State → State) → State → SendOutcome
  | 0, _, _, st => .fuelOut st
  | fuel + 1, w, env, st =>
    match sendIter cfg (payload.length % 2 ^ 32) wue w st with
    | (.brk, st1) => writeFrame payload w st1
    | (.wrapped, st1) => sendLoop cfg payload wue fuel cfg.beginning env st1
    | (.wait_, st1) =>
        match env with
        | [] => .blocked w { st1 with waits := st1.waits + 1 }
        | f :: env' =>
            sendLoop cfg payload wue fuel w env' (f { st1 with waits := st1.waits + 1 })
    | (.assertFail, st1) => .assertFail st1
    | (.panic_, st1) => .panicked st1

/-- `Sender::send_0(value, wait_until_empty)`: compute the serialized size
(truncated to `u32`), reject zero-sized and too-large messages, lock the
header, load the local write cursor once, and run the reservation loop. -/
def send0 (cfg : Config) (payload : List Nat) (wue : Bool) (fuel : Nat)
    (env : List (State → State)) (st : State) : SendOutcome :=
  let size := payload.length % 2 ^ 32
  if size = 0 then .zeroSized st
  else if cfg.mapLen < (cfg.beginning + size + 8) % 2 ^ 32 then .tooLarge st
  else
    let st1 := { st with locks := st.locks + 1 }
    let w := st1.write
    let st2 := { st1 with wLoads := st1.wLoads + 1 }
    sendLoop cfg payload wue fuel w env st2

/-- Outcome of `Receiver::try_recv_0` (and of the receive loop):
`msg v next` is a decoded payload `v` whose frame ends at `next`;
`empty` is `Ok(None)`; `corrupt` is the "corrupt ring buffer" error;
`panic_` a slice-range panic; `fuelOut` a model artifact. -/
inductive RecvOutcome where
  | msg (v : List Nat) (next : Nat) (st : State)
  | empty (st : State)
  | corrupt (st : State)
  | panic_ (st : State)
  | fuelOut (st : State)
deriving DecidableEq

def RecvOutcome.state : RecvOutcome → State
  | .msg _ _ st => st
  | .empty st => st
  | .corrupt st => st
  | .panic_ st => st
  | .fuelOut st => st

def RecvOutcome.isCorrupt : RecvOutcome → Bool
  | .corrupt _ => true
  | _ => false

def RecvOutcome.isMsg : RecvOutcome → Bool
  | .msg _ _ _ => true
  | _ => false

/-- The decode loop of `Receiver::try_recv_0`, with the write cursor `w`
loaded once by the caller and the local read cursor `r`.  A zero size
prefix with `w < r` is a wrap sentinel: set `r = BEGINNING`, lock, store
`read`, broadcast, and loop; a zero size otherwise is corruption. -/
def recvLoop (cfg : Config) (w : Nat) : Nat → Nat → State → RecvOutcome
  | 0, _, st => .fuelOut st
  | fuel + 1, r, st =>
    if w ≠ r then
      let start := (r + 4) % 2 ^ 32
      match sliceRead st.mem r start with
      | none => .panic_ st
      | some sizeBytes =>
          let size := decodeU32 sizeBytes
          if 0 < size then
            let e := (start + size) % 2 ^ 32
            match sliceRead st.mem start e with
            | none => .panic_ st
            | some payload => .msg payload e st
          else if w < r then
            recvLoop cfg w fuel cfg.beginning
              { st with read := cfg.beginning, locks := st.locks + 1,
                        notifies := st.notifies + 1 }
          else .corrupt st
    else .empty st

/-- `Receiver::try_recv_0`: load both cursors once, then run the decode
loop.  A successful decode does not store anything to the header. -/
def tryRecv0 (cfg : Config) (fuel : Nat) (st : State) : RecvOutcome :=
  let st1 := { st with rLoads := st.rLoads + 1, wLoads := st.wLoads + 1 }
  recvLoop cfg st1.write fuel st1.read st1

/-- `Receiver::try_recv` (copying mode): `try_recv_0`, then on success
`seek(position)` — lock, store `read = next`, broadcast. -/
def tryRecv (cfg : Config) (fuel : Nat) (st : State) : RecvOutcome :=
  match tryRecv0 cfg fuel st with
  | .msg v next st1 => .msg v next (seekSt next st1)
  | o => o

/-- The `while read == header.write` wait loop of `recv_timeout_0`: the
read cursor value `r` was loaded before taking the lock and is not
reloaded inside the loop; each `timed_wait` consumes one interference
entry, and an empty list models the deadline expiring (`Ok(None)`).
Returns `(true, remaining, st)` when the loop exits to retry the decode,
`(false, _, st)` on timeout. -/
def recvWait (r : Nat) :
    List (State → State) → State → Bool × List (State → State) × State
  | env, st =>
    let st1 := { st with wLoads := st.wLoads + 1 }
    if r = st1.write then
      match env with
      | [] => (false, [], st1)
      | f :: env' => recvWait r env' (f { st1 with waits := st1.waits + 1 })
    else (true, env, st1)

/-- `Receiver::recv_timeout_0`: try a non-blocking decode; while the
buffer is empty wait on the condition until the deadline.  `rfuel` is the
decode-loop fuel, `fuel` bounds the outer retry loop. -/
def recvTimeout0 (cfg : Config) :
    Nat → Nat → List (State → State) → State → RecvOutcome
  | 0, _, _, st => .fuelOut st
  | fuel + 1, rfuel, env, st =>
    match tryRecv0 cfg rfuel st with
    | .empty st1 =>
        let st2 := { st1 with rLoads := st1.rLoads + 1, locks := st1.locks + 1 }
        match recvWait st2.read env st2 with
        | (false, _, st3) => .empty st3
        | (true, env', st3) => recvTimeout0 cfg fuel rfuel env' st3
    | o => o

/-- `Receiver::recv_timeout` (copying mode): `recv_timeout_0` then on
success `seek(position)`.  `Receiver::recv` is `recv_timeout` with a
ten-year timeout (`DECADE_SECS`), so it shares this model. -/
def recvTimeout (cfg : Config) (fuel rfuel : Nat) (env : List (State → State))
    (st : State) : RecvOutcome :=
  match recvTimeout0 cfg fuel rfuel env st with
  | .msg v next st1 => .msg v next (seekSt next st1)
  | o => o

/-- `ZeroCopyContext`: the borrowed receiver plus the stashed post-frame
position of the (at most one) message received through it. -/
structure ZcCtx where
  position : Option Nat
deriving DecidableEq

/-- Result of a receive attempt through a `ZeroCopyContext`. -/
inductive ZcRes where
  | got (v : List Nat)
  | none_
  | already
  | corrupt
  | panic_
  | fuelOut
deriving DecidableEq

/-- `ZeroCopyContext::try_recv`: fail with `AlreadyReceived` if a message
was already received, otherwise run `try_recv_0` and stash the post-frame
position on success (the read cursor is not advanced). -/
def zcTryRecv (cfg : Config) (fuel : Nat) (ctx : ZcCtx) (st : State) :
    ZcRes × ZcCtx × State :=
  match ctx.position with
  | some _ => (.already, ctx, st)
  | none =>
      match tryRecv0 cfg fuel st with
      | .msg v next st1 => (.got v, ⟨some next⟩, st1)
      | .empty st1 => (.none_, ctx, st1)
      | .corrupt st1 => (.corrupt, ctx, st1)
      | .panic_ st1 => (.panic_, ctx, st1)
      | .fuelOut st1 => (.fuelOut, ctx, st1)

/-- `ZeroCopyContext::recv_timeout` (and `recv`, which delegates to it
with a ten-year timeout): same `AlreadyReceived` guard around
`recv_timeout_0`. -/
def zcRecvTimeout (cfg : Config) (fuel rfuel : Nat) (env : List (State → State))
    (ctx : ZcCtx) (st : State) : ZcRes × ZcCtx × State :=
  match ctx.position with
  | some _ => (.already, ctx, st)
  | none =>
      match recvTimeout0 cfg fuel rfuel env st with
      | .msg v next st1 => (.got v, ⟨some next⟩, st1)
      | .empty st1 => (.none_, ctx, st1)
      | .corrupt st1 => (.corrupt, ctx, st1)
      | .panic_ st1 => (.panic_, ctx, st1)
      | .fuelOut st1 => (.fuelOut, ctx, st1)

/-- `Drop for ZeroCopyContext`: if a position was stashed, `seek` to it
(lock, store `read`, broadcast); otherwise touch nothing. -/
def zcDrop (ctx : ZcCtx) (st : State) : State :=
  match ctx.position with
  | some p => seekSt p st
  | none => st

/-- The cursor invariant of the shared header: both cursors lie in
`[BEGINNING, HEADER_SIZE + capacity]`, and the mapped file has its full
length. -/
def ChanInv (cfg : Config) (st : State) : Prop :=
  st.mem.length = cfg.mapLen ∧
  cfg.beginning ≤ st.read ∧ st.read ≤ cfg.mapLen ∧
  cfg.beginning ≤ st.write ∧ st.write ≤ cfg.mapLen

/-- States reachable by sequences of the public operations: header
initialization, `send` / `send_when_empty` (all outcomes, including an
execution parked in `cond.wait`, which has already published its wrap
sentinel), copying `try_recv` / `recv_timeout`, a zero-copy receive
(`try_recv_0` without the seek), and the release of a zero-copy context
holding a stashed position (a `seek` to that position, possibly after
further operations have run). -/
inductive Reach (cfg : Config) : State → Prop where
  | init : Reach cfg (initState cfg)
  | send (st : State) (p : List Nat) (wue : Bool) (fuel : Nat) :
      Reach cfg st → Reach cfg (send0 cfg p wue fuel [] st).state
  | recv (st : State) (fuel : Nat) :
      Reach cfg st → Reach cfg (tryRecv cfg fuel st).state
  | recvT (st : State) (fuel rfuel : Nat) :
      Reach cfg st → Reach cfg (recvTimeout cfg fuel rfuel [] st).state
  | zcRecv (st : State) (fuel : Nat) :
      Reach cfg st → Reach cfg (tryRecv0 cfg fuel st).state
  | zcRelease (st : State) (fuel : Nat) (v : List Nat) (next : Nat) (st1 st2 : State) :
      Reach cfg st → tryRecv0 cfg fuel st = RecvOutcome.msg v next st1 →
      Reach cfg st2 → Reach cfg (seekSt next st2)

/-- Shared concrete example configuration: `BEGINNING = 8` (a model
header size), capacity 24, mapped length 32. -/
def cfgEx : Config := ⟨8, 24⟩

/-- An empty channel in mid-buffer position (both cursors at 16) with a
zeroed 32-byte mapping. -/
def stEx16 : State := { read := 16, write := 16, mem := List.replicate 32 0 }

/-- A corrupted region: `read = 16` points at a zero size prefix with
`write = 12 < read` (so the receiver treats it as a wrap sentinel), and
`BEGINNING = 8` also holds a zero size prefix with `write ≥ BEGINNING`,
which is the corruption case. -/
def stExCorrupt : State := { read := 16, write := 12, mem := List.replicate 32 0 }

/-- A region holding a committed 3-byte frame `[5, 6, 7]` at `BEGINNING`
followed by a wrap sentinel at 16, with `read = 16` and `write = 15`: the
receiver must traverse the sentinel and decode the frame. -/
def stExWrapped : State :=
  { read := 16, write := 15,
    mem := writeBytes (List.replicate 32 0) 8 [3, 0, 0, 0, 5, 6, 7] }

/-- Interference for the C3 scenario: while the first sender waits, the
consumer runs one `try_recv` (clearing the sentinel) and a second sender
commits the 4-byte message `[1, 2, 3, 4]`. -/
def envEx : State → State := fun s =>
  (send0 cfgEx [1, 2, 3, 4] false 1 [] (tryRecv cfgEx 2 s).state).state

/-- The state in which the 12-byte send from `stEx16` parks: it has
written its wrap sentinel at 16 and stored `write = BEGINNING = 8`, and
its local write cursor is 8. -/
def stBlkEx : State := (send0 cfgEx (List.replicate 12 7) false 3 [] stEx16).state

/-- The shared region at the moment the parked sender wakes: the
interference `envEx` has cleared the sentinel (`read = 8`) and committed
a 4-byte frame at 8 (`write = 16`). -/
def stWEx : State := envEx stBlkEx

/-- The final state of the 12-byte send resumed after `envEx`. -/
def stBadEx : State :=
  (send0 cfgEx (List.replicate 12 7) false 3 [envEx] stEx16).state

/-- Configuration for the C6 boundary scenarios: capacity 16, mapped
length 24. -/
def cfgC6 : Config := ⟨8, 16⟩

/-- Fresh empty channel for `cfgC6` (both cursors at `BEGINNING`). -/
def stC6a : State := { read := 8, write := 8, mem := List.replicate 24 0 }

/-- Empty channel for `cfgC6` with both cursors mid-buffer at 12. -/
def stC6b : State := { read := 12, write := 12, mem := List.replicate 24 0 }

end Ipmpsc

namespace Ipmpsc

theorem writeBytes_length (bs : List Nat) :
    ∀ (mem : List Nat) (off : Nat), (writeBytes mem off bs).length = mem.length := by
  induction bs with
  | nil => intro mem off; rfl
  | cons b bs ih => intro mem off; simp [writeBytes, ih]

theorem readBytes_length (n : Nat) :
    ∀ (mem : List Nat) (off : Nat), (readBytes mem off n).length = n := by
  induction n with
  | zero => intro mem off; rfl
  | succ n ih => intro mem off; simp [readBytes, ih]

theorem getD_set_ne (l : List Nat) (i j v : Nat) (h : i ≠ j) :
    (l.set j v).getD i 0 = l.getD i 0 := by
  simp [List.getD, List.getElem?_set_ne (Ne.symm h)]

theorem getD_set_self (l : List Nat) (j v : Nat) (h : j < l.length) :
    (l.set j v).getD j 0 = v := by
  simp [List.getD, List.getElem?_set_self, h]

theorem getD_writeBytes_below (bs : List Nat) :
    ∀ (mem : List Nat) (off i : Nat), i < off →
      (writeBytes mem off bs).getD i 0 = mem.getD i 0 := by
  induction bs with
  | nil => intro mem off i _; rfl
  | cons b bs ih =>
      intro mem off i h
      have h1 : i < off + 1 := Nat.lt_succ_of_lt h
      simp only [writeBytes]
      rw [ih (mem.set off b) (off + 1) i h1, getD_set_ne mem i off b (Nat.ne_of_lt h)]

theorem getD_writeBytes_above (bs : List Nat) :
    ∀ (mem : List Nat) (off i : Nat), off + bs.length ≤ i →
      (writeBytes mem off bs).getD i 0 = mem.getD i 0 := by
  induction bs with
  | nil => intro mem off i _; rfl
  | cons b bs ih =>
      intro mem off i h
      simp only [List.length_cons] at h
      have h1 : off + 1 + bs.length ≤ i := by omega
      have h2 : i ≠ off := by omega
      simp only [writeBytes]
      rw [ih (mem.set off b) (off + 1) i h1, getD_set_ne mem i off b h2]

theorem readBytes_writeBytes_left (n : Nat) :
    ∀ (mem bs : List Nat) (off off2 : Nat), off + n ≤ off2 →
      readBytes (writeBytes mem off2 bs) off n = readBytes mem off n := by
  induction n with
  | zero => intro mem bs off off2 _; rfl
  | succ n ih =>
      intro mem bs off off2 h
      simp only [readBytes]
      rw [getD_writeBytes_below bs mem off2 off (by omega), ih mem bs (off + 1) off2 (by omega)]

theorem readBytes_writeBytes_right (n : Nat) :
    ∀ (mem bs : List Nat) (off off2 : Nat), off2 + bs.length ≤ off →
      readBytes (writeBytes mem off2 bs) off n = readBytes mem off n := by
  induction n with
  | zero => intro mem bs off off2 _; rfl
  | succ n ih =>
      intro mem bs off off2 h
      simp only [readBytes]
      rw [getD_writeBytes_above bs mem off2 off h, ih mem bs (off + 1) off2 (by omega)]

theorem readBytes_writeBytes (bs : List Nat) :
    ∀ (mem : List Nat) (off : Nat), off + bs.length ≤ mem.length →
      readBytes (writeBytes mem off bs) off bs.length = bs := by
  induction bs with
  | nil => intro mem off _; rfl
  | cons b bs ih =>
      intro mem off h
      simp only [List.length_cons] at h
      simp only [writeBytes, List.length_cons, readBytes]
      have hlen : off + 1 + bs.length ≤ (mem.set off b).length := by
        simp only [List.length_set]; omega
      rw [ih (mem.set off b) (off + 1) hlen,
        getD_writeBytes_below bs (mem.set off b) (off + 1) off (Nat.lt_succ_self off),
        getD_set_self mem off b (by omega)]

theorem encodeU32_length (n : Nat) : (encodeU32 n).length = 4 := rfl

theorem decodeU32_encodeU32 (n : Nat) (h : n < 2 ^ 32) :
    decodeU32 (encodeU32 n) = n := by
  simp only [decodeU32, encodeU32, List.getD]
  norm_num
  omega

theorem decodeU32_lt (bs : List Nat) : decodeU32 bs < 2 ^ 32 := by
  simp only [decodeU32]
  have h0 : bs.getD 0 0 % 256 < 256 := Nat.mod_lt _ (by norm_num)
  have h1 : bs.getD 1 0 % 256 < 256 := Nat.mod_lt _ (by norm_num)
  have h2 : bs.getD 2 0 % 256 < 256 := Nat.mod_lt _ (by norm_num)
  have h3 : bs.getD 3 0 % 256 < 256 := Nat.mod_lt _ (by norm_num)
  omega

theorem sliceWrite_some {mem bs m : List Nat} {a b : Nat}
    (h : sliceWrite mem a b bs = some m) :
    a ≤ b ∧ b ≤ mem.length ∧ bs.length = b - a ∧ m = writeBytes mem a bs := by
  simp only [sliceWrite] at h
  by_cases h1 : b < a
  · simp [h1] at h
  · by_cases h2 : mem.length < b
    · simp [h1, h2] at h
    · by_cases h3 : bs.length = b - a
      · simp [h1, h2, h3] at h
        exact ⟨by omega, by omega, h3, h.symm⟩
      · simp [h1, h2, h3] at h

theorem sliceWrite_of (mem bs : List Nat) (a b : Nat) (h1 : a ≤ b)
    (h2 : b ≤ mem.length) (h3 : bs.length = b - a) :
    sliceWrite mem a b bs = some (writeBytes mem a bs) := by
  simp only [sliceWrite]
  rw [if_neg (by omega), if_neg (by omega), if_neg (by omega)]

theorem sliceRead_some {mem bs : List Nat} {a b : Nat}
    (h : sliceRead mem a b = some bs) :
    a ≤ b ∧ b ≤ mem.length ∧ bs = readBytes mem a (b - a) := by
  simp only [sliceRead] at h
  by_cases h1 : b < a
  · simp [h1] at h
  · by_cases h2 : mem.length < b
    · simp [h1, h2] at h
    · simp [h1, h2] at h
      exact ⟨by omega, by omega, h.symm⟩

theorem sliceRead_of (mem : List Nat) (a b : Nat) (h1 : a ≤ b) (h2 : b ≤ mem.length) :
    sliceRead mem a b = some (readBytes mem a (b - a)) := by
  simp only [sliceRead]
  rw [if_neg (by omega), if_neg (by omega)]

/-- The decode loop never touches `write`, the buffer bytes, or the load
counters, and leaves `read` either untouched or reset to `BEGINNING`. -/
theorem recvLoop_pres (cfg : Config) (w : Nat) :
    ∀ (fuel r : Nat) (st : State),
      (recvLoop cfg w fuel r st).state.write = st.write ∧
      (recvLoop cfg w fuel r st).state.mem = st.mem ∧
      (recvLoop cfg w fuel r st).state.rLoads = st.rLoads ∧
      (recvLoop cfg w fuel r st).state.wLoads = st.wLoads ∧
      ((recvLoop cfg w fuel r st).state.read = st.read ∨
        (recvLoop cfg w fuel r st).state.read = cfg.beginning) := by
  intro fuel
  induction fuel with
  | zero => intro r st; simp [recvLoop, RecvOutcome.state]
  | succ fuel ih =>
      intro r st
      simp only [recvLoop]
      by_cases hwr : w ≠ r
      · rw [if_pos hwr]
        cases h1 : sliceRead st.mem r ((r + 4) % 2 ^ 32) with
        | none => simp [RecvOutcome.state]
        | some sizeBytes =>
            simp only []
            by_cases hsz : 0 < decodeU32 sizeBytes
            · rw [if_pos hsz]
              cases h2 : sliceRead st.mem ((r + 4) % 2 ^ 32)
                  (((r + 4) % 2 ^ 32 + decodeU32 sizeBytes) % 2 ^ 32) with
              | none => simp [RecvOutcome.state]
              | some payload => simp [RecvOutcome.state]
            · rw [if_neg hsz]
              by_cases hlt : w < r
              · rw [if_pos hlt]
                have h3 := ih cfg.beginning
                  { st with read := cfg.beginning, locks := st.locks + 1,
                            notifies := st.notifies + 1 }
                simp only [] at h3
                refine ⟨h3.1, h3.2.1, h3.2.2.1, h3.2.2.2.1, ?_⟩
                rcases h3.2.2.2.2 with h | h
                · exact Or.inr h
                · exact Or.inr h
              · rw [if_neg hlt]
                simp [RecvOutcome.state]
      · rw [if_neg hwr]
        simp [RecvOutcome.state]

/-- A successful decode returns a frame that ends strictly after the
final local read position and inside the mapped region. -/
theorem recvLoop_msg_inv (cfg : Config) (w : Nat) :
    ∀ (fuel r : Nat) (st : State) (v : List Nat) (next : Nat) (st1 : State),
      r = st.read →
      recvLoop cfg w fuel r st = RecvOutcome.msg v next st1 →
      st1.read < next ∧ next ≤ st.mem.length := by
  intro fuel
  induction fuel with
  | zero => intro r st v next st1 _ h; simp [recvLoop] at h
  | succ fuel ih =>
      intro r st v next st1 hr h
      simp only [recvLoop] at h
      by_cases hwr : w ≠ r
      · rw [if_pos hwr] at h
        cases h1 : sliceRead st.mem r ((r + 4) % 2 ^ 32) with
        | none => rw [h1] at h; simp at h
        | some sizeBytes =>
            rw [h1] at h
            simp only [] at h
            by_cases hsz : 0 < decodeU32 sizeBytes
            · rw [if_pos hsz] at h
              cases h2 : sliceRead st.mem ((r + 4) % 2 ^ 32)
                  (((r + 4) % 2 ^ 32 + decodeU32 sizeBytes) % 2 ^ 32) with
              | none => rw [h2] at h; simp at h
              | some payload =>
                  rw [h2] at h
                  simp only [RecvOutcome.msg.injEq] at h
                  obtain ⟨_, hnext, hst⟩ := h
                  have g1 := sliceRead_some h1
                  have g2 := sliceRead_some h2
                  have hs32 := decodeU32_lt sizeBytes
                  subst hst
                  constructor
                  · have e1 := g1.1
                    have e2 := g2.1
                    have e3 := g2.2.1
                    omega
                  · have := g2.2.1
                    omega
            · rw [if_neg hsz] at h
              by_cases hlt : w < r
              · rw [if_pos hlt] at h
                have := ih cfg.beginning
                  { st with read := cfg.beginning, locks := st.locks + 1,
                            notifies := st.notifies + 1 } v next st1 rfl h
                simpa using this
              · rw [if_neg hlt] at h; simp at h
      · rw [if_neg hwr] at h; simp at h

/-- `try_recv_0` on success: the header cursors are not advanced past the
frame (read is either untouched or reset by sentinel processing), the
frame end is in range, and both cursors were loaded exactly once. -/
theorem tryRecv0_msg_inv {cfg : Config} {fuel : Nat} {st : State} {v : List Nat}
    {next : Nat} {st1 : State} (h : tryRecv0 cfg fuel st = RecvOutcome.msg v next st1) :
    (st1.read = st.read ∨ st1.read = cfg.beginning) ∧ st1.read < next ∧
      next ≤ st.mem.length ∧ st1.write = st.write ∧ st1.mem = st.mem ∧
      st1.rLoads = st.rLoads + 1 ∧ st1.wLoads = st.wLoads + 1 := by
  simp only [tryRecv0] at h
  have hpres := recvLoop_pres cfg st.write fuel st.read
    { st with rLoads := st.rLoads + 1, wLoads := st.wLoads + 1 }
  rw [h] at hpres
  have hinv := recvLoop_msg_inv cfg st.write fuel st.read
    { st with rLoads := st.rLoads + 1, wLoads := st.wLoads + 1 } v next st1 rfl h
  simp only [RecvOutcome.state] at hpres
  exact ⟨hpres.2.2.2.2, hinv.1, hinv.2, hpres.1, hpres.2.1, hpres.2.2.1, hpres.2.2.2.1⟩

/-- Any outcome of `try_recv_0` leaves `read` either at its initial value
or at `BEGINNING`, and never changes `write` or the buffer. -/
theorem tryRecv0_pres (cfg : Config) (fuel : Nat) (st : State) :
    (tryRecv0 cfg fuel st).state.write = st.write ∧
    (tryRecv0 cfg fuel st).state.mem = st.mem ∧
    ((tryRecv0 cfg fuel st).state.read = st.read ∨
      (tryRecv0 cfg fuel st).state.read = cfg.beginning) := by
  simp only [tryRecv0]
  have hpres := recvLoop_pres cfg st.write fuel st.read
    { st with rLoads := st.rLoads + 1, wLoads := st.wLoads + 1 }
  exact ⟨hpres.1, hpres.2.1, hpres.2.2.2.2⟩

/-- The wait loop of `recv_timeout_0` with read-preserving interference:
`read` is untouched and the remaining interference is drawn from the
original list. -/
theorem recvWait_read (r : Nat) :
    ∀ (env : List (State → State)) (st : State),
      (∀ f ∈ env, ∀ s : State, (f s).read = s.read) →
      (recvWait r env st).2.2.read = st.read ∧
        ∀ f ∈ (recvWait r env st).2.1, ∀ s : State, (f s).read = s.read := by
  intro env
  induction env with
  | nil =>
      intro st _
      simp only [recvWait]
      by_cases h : r = st.write
      · simp [h]
      · simp [h]
  | cons f env ih =>
      intro st henv
      simp only [recvWait]
      by_cases h : r = st.write
      · rw [if_pos (by simpa using h)]
        have h1 := ih (f { st with wLoads := st.wLoads + 1, waits := st.waits + 1 })
          (fun g hg => henv g (List.mem_cons_of_mem f hg))
        constructor
        · rw [h1.1, henv f (List.mem_cons_self f env)]
        · exact h1.2
      · rw [if_neg (by simpa using h)]
        exact ⟨rfl, henv⟩

/-- Any outcome of `recv_timeout_0` under read-preserving interference
leaves `read` at its initial value or at `BEGINNING`. -/
theorem recvTimeout0_read (cfg : Config) :
    ∀ (fuel rfuel : Nat) (env : List (State → State)) (st : State),
      (∀ f ∈ env, ∀ s : State, (f s).read = s.read) →
      (recvTimeout0 cfg fuel rfuel env st).state.read = st.read ∨
        (recvTimeout0 cfg fuel rfuel env st).state.read = cfg.beginning := by
  intro fuel
  induction fuel with
  | zero => intro rfuel env st _; simp [recvTimeout0, RecvOutcome.state]
  | succ fuel ih =>
      intro rfuel env st henv
      simp only [recvTimeout0]
      cases h : tryRecv0 cfg rfuel st with
      | empty st1 =>
          simp only []
          have h0 := tryRecv0_pres cfg rfuel st
          rw [h] at h0
          simp only [RecvOutcome.state] at h0
          have hw := recvWait_read st1.read env
            { st1 with rLoads := st1.rLoads + 1, locks := st1.locks + 1 } henv
          cases hrw : recvWait st1.read env
              { st1 with rLoads := st1.rLoads + 1, locks := st1.locks + 1 } with
          | mk b rest =>
              cases b with
              | false =>
                  simp only [RecvOutcome.state]
                  rw [hrw] at hw
                  simp only [] at hw
                  rw [hw.1]
                  exact h0.2.2
              | true =>
                  simp only []
                  rw [hrw] at hw
                  have := ih rfuel rest.1 rest.2 hw.2
                  rcases this with h2 | h2
                  · rw [h2, hw.1]
                    exact h0.2.2
                  · exact Or.inr h2
      | msg v next st1 =>
          have h0 := tryRecv0_pres cfg rfuel st
          rw [h] at h0
          simp only [RecvOutcome.state] at h0 ⊢
          exact h0.2.2
      | corrupt st1 =>
          have h0 := tryRecv0_pres cfg rfuel st
          rw [h] at h0
          simp only [RecvOutcome.state] at h0 ⊢
          exact h0.2.2
      | panic_ st1 =>
          have h0 := tryRecv0_pres cfg rfuel st
          rw [h] at h0
          simp only [RecvOutcome.state] at h0 ⊢
          exact h0.2.2
      | fuelOut st1 =>
          have h0 := tryRecv0_pres cfg rfuel st
          rw [h] at h0
          simp only [RecvOutcome.state] at h0 ⊢
          exact h0.2.2

/-- Copying `try_recv` propagates the corruption error unchanged. -/
theorem tryRecv_corrupt {cfg : Config} {fuel : Nat} {st st' : State}
    (h : tryRecv cfg fuel st = RecvOutcome.corrupt st') :
    tryRecv0 cfg fuel st = RecvOutcome.corrupt st' := by
  simp only [tryRecv] at h
  cases htr : tryRecv0 cfg fuel st with
  | msg v next st1 => rw [htr] at h; simp at h
  | empty st1 => rw [htr] at h; simp at h
  | corrupt st1 => rw [htr] at h; simpa using h
  | panic_ st1 => rw [htr] at h; simp at h
  | fuelOut st1 => rw [htr] at h; simp at h

/-- Copying `recv_timeout` propagates the corruption error unchanged. -/
theorem recvTimeout_corrupt {cfg : Config} {fuel rfuel : Nat}
    {env : List (State → State)} {st st' : State}
    (h : recvTimeout cfg fuel rfuel env st = RecvOutcome.corrupt st') :
    recvTimeout0 cfg fuel rfuel env st = RecvOutcome.corrupt st' := by
  simp only [recvTimeout] at h
  cases htr : recvTimeout0 cfg fuel rfuel env st with
  | msg v next st1 => rw [htr] at h; simp at h
  | empty st1 => rw [htr] at h; simp at h
  | corrupt st1 => rw [htr] at h; simpa using h
  | panic_ st1 => rw [htr] at h; simp at h
  | fuelOut st1 => rw [htr] at h; simp at h

/-- Claim C2: in a zero-copy context, a successful decode stashes the
post-frame offset `next` in the context and does not advance the read
cursor (`read` is left at its initial value, or at `BEGINNING` when wrap
sentinels were traversed, and in any case strictly before `next`);
releasing a context holding a stash takes the header lock, stores
`read = next`, and broadcasts; releasing a context that received nothing
touches neither cursor. -/
theorem C2_zero_copy_context (cfg : Config) (fuel : Nat) (st : State) :
    (∀ (v : List Nat) (ctx' : ZcCtx) (st1 : State),
        zcTryRecv cfg fuel ⟨none⟩ st = (ZcRes.got v, ctx', st1) →
        ∃ next, ctx' = ⟨some next⟩ ∧
          (st1.read = st.read ∨ st1.read = cfg.beginning) ∧ st1.read < next ∧
          st1.write = st.write ∧
          zcDrop ctx' st1 =
            { st1 with locks := st1.locks + 1, read := next,
                       notifies := st1.notifies + 1 }) ∧
    ∀ st2 : State, zcDrop ⟨none⟩ st2 = st2 := by
  constructor
  · intro v ctx' st1 h
    simp only [zcTryRecv] at h
    cases htr : tryRecv0 cfg fuel st with
    | msg v0 next0 st0 =>
        rw [htr] at h
        simp only [Prod.mk.injEq, ZcRes.got.injEq] at h
        obtain ⟨hv, hctx, hst⟩ := h
        subst hv hst
        have hi := tryRecv0_msg_inv htr
        exact ⟨next0, hctx.symm, hi.1, hi.2.1, hi.2.2.2.1, by rw [← hctx]; rfl⟩
    | empty st0 => rw [htr] at h; simp at h
    | corrupt st0 => rw [htr] at h; simp at h
    | panic_ st0 => rw [htr] at h; simp at h
    | fuelOut st0 => rw [htr] at h; simp at h
  · intro st2; rfl

/-- Claim C9: a zero-copy context that has successfully decoded a message
holds a stashed position, and on such a context every subsequent
`try_recv`, `recv`, or `recv_timeout` fails with `AlreadyReceived`,
returning the state unchanged — in particular the read cursor is exactly
as before the failing attempt (the stashed offset is not stored). -/
theorem C9_already_received (cfg : Config) (fuel : Nat) (st : State)
    (v : List Nat) (ctx' : ZcCtx) (st1 : State)
    (h : zcTryRecv cfg fuel ⟨none⟩ st = (ZcRes.got v, ctx', st1)) :
    (∃ next, ctx'.position = some next) ∧
    (∀ (fuel2 : Nat) (st2 : State),
        zcTryRecv cfg fuel2 ctx' st2 = (ZcRes.already, ctx', st2)) ∧
    (∀ (fuel3 rfuel : Nat) (env : List (State → State)) (st3 : State),
        zcRecvTimeout cfg fuel3 rfuel env ctx' st3 = (ZcRes.already, ctx', st3)) ∧
    ∀ (fuel2 : Nat) (st2 : State),
        (zcTryRecv cfg fuel2 ctx' st2).2.2.read = st2.read := by
  have hctx : ∃ next, ctx' = ZcCtx.mk (some next) := by
    simp only [zcTryRecv] at h
    cases htr : tryRecv0 cfg fuel st with
    | msg v0 next0 st0 =>
        rw [htr] at h
        simp only [Prod.mk.injEq, ZcRes.got.injEq] at h
        exact ⟨next0, h.2.1.symm⟩
    | empty st0 => rw [htr] at h; simp at h
    | corrupt st0 => rw [htr] at h; simp at h
    | panic_ st0 => rw [htr] at h; simp at h
    | fuelOut st0 => rw [htr] at h; simp at h
  obtain ⟨next, hn⟩ := hctx
  subst hn
  refine ⟨⟨next, rfl⟩, fun fuel2 st2 => rfl, fun fuel3 rfuel env st3 => rfl,
    fun fuel2 st2 => rfl⟩

/-- Claim C5 (amended): every receive operation that returns the
corruption error — the receive path's error return — leaves the read
cursor either at its value when the operation began or at `BEGINNING`
(stored by wrap-sentinel processing that preceded the failure); an
`AlreadyReceived` failure of a zero-copy context returns the state
untouched.  Interference during waits is assumed not to store `read`
(only the single consumer stores it). -/
theorem C5_amended_failed_recv (cfg : Config) :
    (∀ (fuel : Nat) (st st' : State),
        tryRecv0 cfg fuel st = RecvOutcome.corrupt st' →
        st'.read = st.read ∨ st'.read = cfg.beginning) ∧
    (∀ (fuel : Nat) (st st' : State),
        tryRecv cfg fuel st = RecvOutcome.corrupt st' →
        st'.read = st.read ∨ st'.read = cfg.beginning) ∧
    (∀ (fuel rfuel : Nat) (env : List (State → State)) (st st' : State),
        (∀ f ∈ env, ∀ s : State, (f s).read = s.read) →
        recvTimeout cfg fuel rfuel env st = RecvOutcome.corrupt st' →
        st'.read = st.read ∨ st'.read = cfg.beginning) ∧
    (∀ (fuel : Nat) (ctx : ZcCtx) (st : State) (res : ZcRes) (ctx' : ZcCtx)
        (st' : State),
        zcTryRecv cfg fuel ctx st = (res, ctx', st') →
        res = ZcRes.already ∨ res = ZcRes.corrupt →
        st'.read = st.read ∨ st'.read = cfg.beginning) ∧
    (∀ (fuel rfuel : Nat) (env : List (State → State)) (ctx : ZcCtx) (st : State)
        (res : ZcRes) (ctx' : ZcCtx) (st' : State),
        (∀ f ∈ env, ∀ s : State, (f s).read = s.read) →
        zcRecvTimeout cfg fuel rfuel env ctx st = (res, ctx', st') →
        res = ZcRes.already ∨ res = ZcRes.corrupt →
        st'.read = st.read ∨ st'.read = cfg.beginning) := by
  have base : ∀ (fuel : Nat) (st st' : State),
      tryRecv0 cfg fuel st = RecvOutcome.corrupt st' →
      st'.read = st.read ∨ st'.read = cfg.beginning := by
    intro fuel st st' h
    have := tryRecv0_pres cfg fuel st
    rw [h] at this
    exact this.2.2
  have baseT : ∀ (fuel rfuel : Nat) (env : List (State → State)) (st st' : State),
      (∀ f ∈ env, ∀ s : State, (f s).read = s.read) →
      recvTimeout0 cfg fuel rfuel env st = RecvOutcome.corrupt st' →
      st'.read = st.read ∨ st'.read = cfg.beginning := by
    intro fuel rfuel env st st' henv h
    have := recvTimeout0_read cfg fuel rfuel env st henv
    rw [h] at this
    exact this
  refine ⟨base, ?_, ?_, ?_, ?_⟩
  · intro fuel st st' h
    exact base fuel st st' (tryRecv_corrupt h)
  · intro fuel rfuel env st st' henv h
    exact baseT fuel rfuel env st st' henv (recvTimeout_corrupt h)
  · intro fuel ctx st res ctx' st' h hres
    cases hp : ctx.position with
    | some p =>
        simp only [zcTryRecv, hp, Prod.mk.injEq] at h
        obtain ⟨_, _, hst⟩ := h
        subst hst
        exact Or.inl rfl
    | none =>
        simp only [zcTryRecv, hp] at h
        cases htr : tryRecv0 cfg fuel st with
        | msg v0 next0 st0 =>
            rw [htr] at h
            rcases hres with hres | hres <;> rw [hres] at h <;> simp at h
        | empty st0 =>
            rw [htr] at h
            rcases hres with hres | hres <;> rw [hres] at h <;> simp at h
        | corrupt st0 =>
            rw [htr] at h
            simp only [Prod.mk.injEq] at h
            obtain ⟨_, _, hst⟩ := h
            subst hst
            exact base fuel st st0 htr
        | panic_ st0 =>
            rw [htr] at h
            rcases hres with hres | hres <;> rw [hres] at h <;> simp at h
        | fuelOut st0 =>
            rw [htr] at h
            rcases hres with hres | hres <;> rw [hres] at h <;> simp at h
  · intro fuel rfuel env ctx st res ctx' st' henv h hres
    cases hp : ctx.position with
    | some p =>
        simp only [zcRecvTimeout, hp, Prod.mk.injEq] at h
        obtain ⟨_, _, hst⟩ := h
        subst hst
        exact Or.inl rfl
    | none =>
        simp only [zcRecvTimeout, hp] at h
        cases htr : recvTimeout0 cfg fuel rfuel env st with
        | msg v0 next0 st0 =>
            rw [htr] at h
            rcases hres with hres | hres <;> rw [hres] at h <;> simp at h
        | empty st0 =>
            rw [htr] at h
            rcases hres with hres | hres <;> rw [hres] at h <;> simp at h
        | corrupt st0 =>
            rw [htr] at h
            simp only [Prod.mk.injEq] at h
            obtain ⟨_, _, hst⟩ := h
            subst hst
            exact baseT fuel rfuel env st st0 henv htr
        | panic_ st0 =>
            rw [htr] at h
            rcases hres with hres | hres <;> rw [hres] at h <;> simp at h
        | fuelOut st0 =>
            rw [htr] at h
            rcases hres with hres | hres <;> rw [hres] at h <;> simp at h

/-- Claim C5 as stated is false at a concrete input: on the corrupted
region `stExCorrupt` the copying `try_recv` returns the corruption error,
yet the read cursor does not equal its value at the start of the
operation — the wrap-sentinel reset that preceded the failure left it at
`BEGINNING = 8` instead of 16. -/
theorem C5_counterexample :
    (tryRecv cfgEx 2 stExCorrupt).isCorrupt = true ∧
    stExCorrupt.read = 16 ∧ (tryRecv cfgEx 2 stExCorrupt).state.read = 8 := by
  decide

/-- Claim C4 (amended): when the receiver decodes a length prefix of 0
with `write < read`, it takes the header lock, stores
`read = BEGINNING`, broadcasts, releases, and decodes again — but it does
not reload the cursors from the header before decoding again: the
restarted iteration uses `r = BEGINNING` (the value just stored) and the
write cursor value `w` loaded once when the call began, and over the
whole call each cursor is loaded exactly once. -/
theorem C4_amended_sentinel_restart (cfg : Config) (fuel : Nat) (st : State)
    (sizeBytes : List Nat)
    (h1 : sliceRead st.mem st.read ((st.read + 4) % 2 ^ 32) = some sizeBytes)
    (h2 : decodeU32 sizeBytes = 0)
    (h3 : st.write < st.read) :
    tryRecv0 cfg (fuel + 1) st =
      recvLoop cfg st.write fuel cfg.beginning
        { st with rLoads := st.rLoads + 1, wLoads := st.wLoads + 1,
                  read := cfg.beginning, locks := st.locks + 1,
                  notifies := st.notifies + 1 } ∧
    (tryRecv0 cfg (fuel + 1) st).state.rLoads = st.rLoads + 1 ∧
    (tryRecv0 cfg (fuel + 1) st).state.wLoads = st.wLoads + 1 := by
  have hmain : tryRecv0 cfg (fuel + 1) st =
      recvLoop cfg st.write fuel cfg.beginning
        { st with rLoads := st.rLoads + 1, wLoads := st.wLoads + 1,
                  read := cfg.beginning, locks := st.locks + 1,
                  notifies := st.notifies + 1 } := by
    show recvLoop cfg st.write (fuel + 1) st.read
        { st with rLoads := st.rLoads + 1, wLoads := st.wLoads + 1 } = _
    simp only [recvLoop]
    rw [if_pos (by omega : st.write ≠ st.read)]
    have h1' : sliceRead
        ({ st with rLoads := st.rLoads + 1, wLoads := st.wLoads + 1 } : State).mem
        st.read ((st.read + 4) % 2 ^ 32) = some sizeBytes := h1
    rw [h1']
    simp only [h2]
    rw [if_neg (by omega : ¬ (0 : Nat) < 0), if_pos h3]
  refine ⟨hmain, ?_, ?_⟩
  · rw [hmain]
    have := recvLoop_pres cfg st.write fuel cfg.beginning
      { st with rLoads := st.rLoads + 1, wLoads := st.wLoads + 1,
                read := cfg.beginning, locks := st.locks + 1,
                notifies := st.notifies + 1 }
    exact this.2.2.1
  · rw [hmain]
    have := recvLoop_pres cfg st.write fuel cfg.beginning
      { st with rLoads := st.rLoads + 1, wLoads := st.wLoads + 1,
                read := cfg.beginning, locks := st.locks + 1,
                notifies := st.notifies + 1 }
    exact this.2.2.2.1

/-- Witness for the amended C4 at the concrete wrapped region
`stExWrapped` (sentinel at 16, frame at `BEGINNING = 8`). -/
theorem C4_amended_sentinel_restart_witness :
    tryRecv0 cfgEx 2 stExWrapped =
      recvLoop cfgEx stExWrapped.write 1 cfgEx.beginning
        { stExWrapped with rLoads := stExWrapped.rLoads + 1,
                           wLoads := stExWrapped.wLoads + 1,
                           read := cfgEx.beginning,
                           locks := stExWrapped.locks + 1,
                           notifies := stExWrapped.notifies + 1 } ∧
    (tryRecv0 cfgEx 2 stExWrapped).state.rLoads = stExWrapped.rLoads + 1 ∧
    (tryRecv0 cfgEx 2 stExWrapped).state.wLoads = stExWrapped.wLoads + 1 :=
  C4_amended_sentinel_restart cfgEx 1 stExWrapped [0, 0, 0, 0] (by decide)
    (by decide) (by decide)

/-- Claim C4 as stated is false at a concrete input: on `stExWrapped` the
receiver hits the wrap sentinel (storing `read = BEGINNING = 8`, one lock
and one broadcast) and then successfully decodes again, yet over the
whole call the write cursor was loaded exactly once and the read cursor
exactly once — the claimed restart "from step 1", which reloads both
`r = read` and `w = write` from the header before decoding again, would
perform at least two loads of each. -/
theorem C4_counterexample :
    (tryRecv0 cfgEx 2 stExWrapped).isMsg = true ∧
    stExWrapped.read = 16 ∧
    (tryRecv0 cfgEx 2 stExWrapped).state.read = 8 ∧
    (tryRecv0 cfgEx 2 stExWrapped).state.locks = 1 ∧
    (tryRecv0 cfgEx 2 stExWrapped).state.notifies = 1 ∧
    (tryRecv0 cfgEx 2 stExWrapped).state.rLoads = 1 ∧
    (tryRecv0 cfgEx 2 stExWrapped).state.wLoads = 1 := by
  decide

/-- Claim C10: whenever the sender's loop takes the wrap branch (the tail
cannot hold the message, `read != BEGINNING`, and `write == read` or
`write > read`), the local write cursor satisfies `write > BEGINNING`, so
given both cursors at least `BEGINNING` the iteration never reports an
assertion failure. -/
theorem C10_wrap_assert (cfg : Config) (size : Nat) (wue : Bool) (w : Nat)
    (st : State) (hr : cfg.beginning ≤ st.read) (hw : cfg.beginning ≤ w) :
    (st.read ≠ cfg.beginning → (w = st.read ∨ st.read < w) → cfg.beginning < w) ∧
    (sendIter cfg size wue w st).1 ≠ IterAction.assertFail := by
  constructor
  · intro hne hcase
    rcases hcase with h | h <;> omega
  · simp only [sendIter]
    by_cases hc : w = st.read ∨ (st.read < w ∧ wue = false)
    · rw [if_pos hc]
      by_cases hfit : (w + size + 8) % 2 ^ 32 ≤ cfg.mapLen
      · rw [if_pos hfit]; simp
      · rw [if_neg hfit]
        by_cases hne : st.read ≠ cfg.beginning
        · rw [if_pos hne]
          have hbw : cfg.beginning < w := by
            rcases hc with h | h <;> omega
          rw [if_pos hbw]
          cases sliceWrite st.mem w ((w + 4) % 2 ^ 32) (encodeU32 0) with
          | none => simp
          | some m => simp
        · rw [if_neg hne]; simp
    · rw [if_neg hc]
      by_cases hgap : (w + size + 8) % 2 ^ 32 ≤ st.read ∧ wue = false
      · rw [if_pos hgap]; simp
      · rw [if_neg hgap]; simp

/-- Witness for C10 at a concrete wrap-branch input: `w = read = 16`,
message size 12, capacity 24 — the branch is taken and no assertion
failure is reported. -/
theorem C10_wrap_assert_witness :
    ((16 : Nat) ≠ cfgEx.beginning → ((16 : Nat) = stEx16.read ∨ stEx16.read < 16) →
      cfgEx.beginning < 16) ∧
    (sendIter cfgEx 12 false 16 stEx16).1 ≠ IterAction.assertFail := by
  have h := C10_wrap_assert cfgEx 12 false 16 stEx16 (by decide) (by decide)
  exact ⟨fun h1 h2 => by decide, h.2⟩

/-- Claim C7: in a default-mode send whose local cursor `w` is at or
ahead of `r = read` and whose free tail cannot hold `S + 8` bytes: if
`r != BEGINNING` the iteration writes a little-endian `u32 0` wrap
sentinel at `w`, stores `write = BEGINNING`, broadcasts, and the loop
restarts with `w = BEGINNING`; if `r == BEGINNING` the iteration waits on
the condition variable (with no interference the loop parks there). -/
theorem C7_wrap_or_wait (cfg : Config) (size w : Nat) (st : State)
    (hlen : st.mem.length = cfg.mapLen)
    (h32 : cfg.mapLen < 2 ^ 32)
    (hr : cfg.beginning ≤ st.read)
    (hcase : w = st.read ∨ st.read < w)
    (hnofit : cfg.mapLen < w + size + 8)
    (hw32 : w + size + 8 < 2 ^ 32)
    (hw4 : w + 4 ≤ cfg.mapLen) :
    (st.read ≠ cfg.beginning →
      sendIter cfg size false w st =
        (IterAction.wrapped,
          { st with rLoads := st.rLoads + 1,
                    mem := writeBytes st.mem w (encodeU32 0),
                    write := cfg.beginning, notifies := st.notifies + 1 }) ∧
      ∀ (p : List Nat) (fuel : Nat) (env : List (State → State)),
        p.length % 2 ^ 32 = size →
        sendLoop cfg p false (fuel + 1) w env st =
          sendLoop cfg p false fuel cfg.beginning env
            { st with rLoads := st.rLoads + 1,
                      mem := writeBytes st.mem w (encodeU32 0),
                      write := cfg.beginning, notifies := st.notifies + 1 }) ∧
    (st.read = cfg.beginning →
      sendIter cfg size false w st =
        (IterAction.wait_, { st with rLoads := st.rLoads + 1 }) ∧
      ∀ (p : List Nat) (fuel : Nat), p.length % 2 ^ 32 = size →
        sendLoop cfg p false (fuel + 1) w [] st =
          SendOutcome.blocked w
            { st with rLoads := st.rLoads + 1, waits := st.waits + 1 }) := by
  have hmod : (w + size + 8) % 2 ^ 32 = w + size + 8 := Nat.mod_eq_of_lt hw32
  have hmod4 : (w + 4) % 2 ^ 32 = w + 4 := Nat.mod_eq_of_lt (by omega)
  have hcond : w = st.read ∨ (st.read < w ∧ True) := by
    rcases hcase with h | h
    · exact Or.inl h
    · exact Or.inr ⟨h, trivial⟩
  constructor
  · intro hne
    have hbw : cfg.beginning < w := by rcases hcase with h | h <;> omega
    have hiter : sendIter cfg size false w st =
        (IterAction.wrapped,
          { st with rLoads := st.rLoads + 1,
                    mem := writeBytes st.mem w (encodeU32 0),
                    write := cfg.beginning, notifies := st.notifies + 1 }) := by
      simp only [sendIter]
      rw [if_pos hcond, if_neg (by rw [hmod]; omega), if_pos hne, if_pos hbw]
      rw [hmod4, sliceWrite_of st.mem (encodeU32 0) w (w + 4) (by omega)
        (by omega) (by rw [encodeU32_length]; omega)]
    refine ⟨hiter, ?_⟩
    intro p fuel env hp
    show sendLoop cfg p false (fuel + 1) w env st = _
    simp only [sendLoop]
    rw [hp, hiter]
  · intro hB
    have hiter : sendIter cfg size false w st =
        (IterAction.wait_, { st with rLoads := st.rLoads + 1 }) := by
      simp only [sendIter]
      rw [if_pos hcond, if_neg (by rw [hmod]; omega), if_neg (by rw [hB]; simp)]
    refine ⟨hiter, ?_⟩
    intro p fuel hp
    show sendLoop cfg p false (fuel + 1) w [] st = _
    simp only [sendLoop]
    rw [hp, hiter]

/-- Witness for C7 at a concrete input: `w = read = 16 != BEGINNING`,
message size 12, capacity 24 — the iteration wraps and the loop restarts
at `BEGINNING`. -/
theorem C7_wrap_or_wait_witness :
    sendLoop cfgEx (List.replicate 12 7) false 2 16 [] stEx16 =
      sendLoop cfgEx (List.replicate 12 7) false 1 cfgEx.beginning []
        { stEx16 with rLoads := stEx16.rLoads + 1,
                      mem := writeBytes stEx16.mem 16 (encodeU32 0),
                      write := cfgEx.beginning,
                      notifies := stEx16.notifies + 1 } :=
  ((C7_wrap_or_wait cfgEx 12 16 stEx16 (by decide) (by decide) (by decide)
      (by decide) (by decide) (by decide) (by decide)).1 (by decide)).2
    (List.replicate 12 7) 1 [] (by decide)

/-- Witness for C2 at the concrete wrapped region `stExWrapped`: the
zero-copy decode returns `[5, 6, 7]`, stashes `next = 15`, leaves the
cursors unadvanced, and its release stores `read = next` under the lock
with a broadcast. -/
theorem C2_zero_copy_context_witness :
    ∃ next, (zcTryRecv cfgEx 2 ⟨none⟩ stExWrapped).2.1 = ZcCtx.mk (some next) ∧
      ((zcTryRecv cfgEx 2 ⟨none⟩ stExWrapped).2.2.read = stExWrapped.read ∨
        (zcTryRecv cfgEx 2 ⟨none⟩ stExWrapped).2.2.read = cfgEx.beginning) ∧
      (zcTryRecv cfgEx 2 ⟨none⟩ stExWrapped).2.2.read < next ∧
      (zcTryRecv cfgEx 2 ⟨none⟩ stExWrapped).2.2.write = stExWrapped.write ∧
      zcDrop (zcTryRecv cfgEx 2 ⟨none⟩ stExWrapped).2.1
          (zcTryRecv cfgEx 2 ⟨none⟩ stExWrapped).2.2 =
        { (zcTryRecv cfgEx 2 ⟨none⟩ stExWrapped).2.2 with
            locks := (zcTryRecv cfgEx 2 ⟨none⟩ stExWrapped).2.2.locks + 1,
            read := next,
            notifies := (zcTryRecv cfgEx 2 ⟨none⟩ stExWrapped).2.2.notifies + 1 } :=
  (C2_zero_copy_context cfgEx 2 stExWrapped).1 [5, 6, 7]
    (zcTryRecv cfgEx 2 ⟨none⟩ stExWrapped).2.1
    (zcTryRecv cfgEx 2 ⟨none⟩ stExWrapped).2.2 (by decide)

/-- Witness for C9: after the zero-copy decode on `stExWrapped`, a second
`try_recv` on the same context fails with `AlreadyReceived` and changes
nothing. -/
theorem C9_already_received_witness :
    zcTryRecv cfgEx 3 (zcTryRecv cfgEx 2 ⟨none⟩ stExWrapped).2.1 stEx16 =
      (ZcRes.already, (zcTryRecv cfgEx 2 ⟨none⟩ stExWrapped).2.1, stEx16) :=
  (C9_already_received cfgEx 2 stExWrapped [5, 6, 7]
      (zcTryRecv cfgEx 2 ⟨none⟩ stExWrapped).2.1
      (zcTryRecv cfgEx 2 ⟨none⟩ stExWrapped).2.2 (by decide)).2.1 3 stEx16

/-- Witness for the amended C5 at the corrupted region `stExCorrupt`: the
failing copying `try_recv` leaves `read` at `BEGINNING`. -/
theorem C5_amended_failed_recv_witness :
    (tryRecv cfgEx 2 stExCorrupt).state.read = stExCorrupt.read ∨
      (tryRecv cfgEx 2 stExCorrupt).state.read = cfgEx.beginning :=
  (C5_amended_failed_recv cfgEx).2.1 2 stExCorrupt
    (tryRecv cfgEx 2 stExCorrupt).state (by decide)

/-- Claim C3 is false on the code, and the spec is the evident intent
(code bug): after waking from `cond.wait` the sender does not reload its
local copy `w` from the header's write cursor — `send_0` loads `write`
once, before the loop, and the loop body only reloads `read`.  Concrete
interleaving: from the empty state `stEx16` (cursors at 16, capacity 24)
a 12-byte send wraps (sentinel at 16, stores `write = 8`) and then parks
in `cond.wait` with local `w = 8`.  While it waits, the consumer clears
the sentinel (`read = 8`) and a second producer commits the 4-byte frame
`[1, 2, 3, 4]` at offset 8, advancing the header's `write` to 16.  The
woken sender re-evaluates with its stale `w = 8`, finds `w = read` and
`8 + 12 + 8 ≤ 32`, and commits its frame at 8 — destroying the second
producer's committed frame (the prefix at 8 now reads 12, the bytes at 12
are payload `7`s, and `write = 24`).  Had `w` been reloaded as the claim
states, the sender would have found `write = 16` with
`16 + 12 + 8 > 32` and `read = BEGINNING`, and waited instead (the last
two conjuncts). -/
theorem C3_stale_write_after_wait :
    send0 cfgEx (List.replicate 12 7) false 3 [] stEx16 =
      SendOutcome.blocked 8 stBlkEx ∧
    stWEx.read = 8 ∧ stWEx.write = 16 ∧
    readBytes stWEx.mem 8 4 = encodeU32 4 ∧
    readBytes stWEx.mem 12 4 = [1, 2, 3, 4] ∧
    send0 cfgEx (List.replicate 12 7) false 3 [envEx] stEx16 =
      SendOutcome.ok stBadEx ∧
    stBadEx.write = 24 ∧
    readBytes stBadEx.mem 8 4 = encodeU32 12 ∧
    readBytes stBadEx.mem 12 4 = [7, 7, 7, 7] ∧
    cfgEx.mapLen < (stWEx.write + 12 + 8) % 2 ^ 32 ∧
    stWEx.read = cfgEx.beginning := by
  decide

/-- The reservation loop never produces the two size-check errors: those
are raised before the loop starts. -/
theorem sendLoop_notErr (cfg : Config) (p : List Nat) (wue : Bool) :
    ∀ (fuel w : Nat) (env : List (State → State)) (st : State),
      (sendLoop cfg p wue fuel w env st).isZeroSized = false ∧
      (sendLoop cfg p wue fuel w env st).isTooLarge = false := by
  intro fuel
  induction fuel with
  | zero =>
      intro w env st
      simp [sendLoop, SendOutcome.isZeroSized, SendOutcome.isTooLarge]
  | succ fuel ih =>
      intro w env st
      simp only [sendLoop]
      cases hit : sendIter cfg (p.length % 2 ^ 32) wue w st with
      | mk a st1 =>
          cases a with
          | brk =>
              simp only [writeFrame]
              cases sliceWrite st1.mem w ((w + 4) % 2 ^ 32)
                  (encodeU32 (p.length % 2 ^ 32)) with
              | none => simp [SendOutcome.isZeroSized, SendOutcome.isTooLarge]
              | some m1 =>
                  simp only []
                  cases sliceWrite m1 ((w + 4) % 2 ^ 32)
                      (((w + 4) % 2 ^ 32 + p.length % 2 ^ 32) % 2 ^ 32) p with
                  | none => simp [SendOutcome.isZeroSized, SendOutcome.isTooLarge]
                  | some m2 => simp [SendOutcome.isZeroSized, SendOutcome.isTooLarge]
          | wrapped => exact ih cfg.beginning env st1
          | wait_ =>
              cases env with
              | nil => simp [SendOutcome.isZeroSized, SendOutcome.isTooLarge]
              | cons f env' => exact ih w env' (f { st1 with waits := st1.waits + 1 })
          | assertFail => simp [SendOutcome.isZeroSized, SendOutcome.isTooLarge]
          | panic_ => simp [SendOutcome.isZeroSized, SendOutcome.isTooLarge]

/-- `send_0` with a (truncated) serialized size of zero returns
`ZeroSizedMessage` immediately. -/
theorem send0_zeroSized_of (cfg : Config) (p : List Nat) (wue : Bool) (fuel : Nat)
    (env : List (State → State)) (st : State) (h0 : p.length % 2 ^ 32 = 0) :
    send0 cfg p wue fuel env st = SendOutcome.zeroSized st := by
  simp only [send0]
  rw [if_pos h0]

/-- `send_0` with a nonzero truncated size failing the 32-bit size check
returns `MessageTooLarge` immediately. -/
theorem send0_tooLarge_of (cfg : Config) (p : List Nat) (wue : Bool) (fuel : Nat)
    (env : List (State → State)) (st : State) (h0 : p.length % 2 ^ 32 ≠ 0)
    (h1 : cfg.mapLen < (cfg.beginning + p.length % 2 ^ 32 + 8) % 2 ^ 32) :
    send0 cfg p wue fuel env st = SendOutcome.tooLarge st := by
  simp only [send0]
  rw [if_neg h0, if_pos h1]

/-- `send_0` past both size checks locks the header, loads the write
cursor once and enters the reservation loop. -/
theorem send0_eq_sendLoop (cfg : Config) (p : List Nat) (wue : Bool) (fuel : Nat)
    (env : List (State → State)) (st : State) (h0 : p.length % 2 ^ 32 ≠ 0)
    (h1 : ¬ cfg.mapLen < (cfg.beginning + p.length % 2 ^ 32 + 8) % 2 ^ 32) :
    send0 cfg p wue fuel env st =
      sendLoop cfg p wue fuel st.write env
        { st with locks := st.locks + 1, wLoads := st.wLoads + 1 } := by
  simp only [send0]
  rw [if_neg h0, if_neg h1]

/-- Claim C6 as stated is false at concrete inputs, in three ways.
(1) A value of serialized size `2 ^ 32` (nonzero) is rejected as
`ZeroSizedMessage`, because `send_0` truncates `serialized_size` to
`u32`.  (2) A value of size `2 ^ 32 + 1` with `S + 8 > capacity` is not
rejected as `MessageTooLarge` (the 32-bit sum in the size check wraps),
and a value of size 0 with `0 + 8 > capacity = 4` is rejected as
`ZeroSizedMessage`, not `MessageTooLarge` — so "fails with
MessageTooLarge iff S + 8 > capacity" fails in both directions.  (3) A
value with `S + 8 == capacity` sent on an *empty* channel whose cursors
sit mid-buffer (both at 12, capacity 16) wraps and then parks in
`cond.wait` — it is not written without waiting. -/
theorem C6_counterexample :
    (send0 cfgC6 (List.replicate (2 ^ 32) 0) false 1 [] stC6a).isZeroSized = true ∧
    (2 ^ 32 : Nat) ≠ 0 ∧
    (send0 cfgC6 (List.replicate (2 ^ 32 + 1) 0) false 1 [] stC6a).isTooLarge
        = false ∧
    cfgC6.capacity < (2 ^ 32 + 1) + 8 ∧
    (send0 ⟨8, 4⟩ [] false 1 []
        { read := 8, write := 8, mem := List.replicate 12 0 }).isZeroSized = true ∧
    (send0 ⟨8, 4⟩ [] false 1 []
        { read := 8, write := 8, mem := List.replicate 12 0 }).isTooLarge = false ∧
    Config.capacity ⟨8, 4⟩ < 0 + 8 ∧
    (send0 cfgC6 (List.replicate 8 1) false 3 [] stC6b).isOk = false ∧
    (send0 cfgC6 (List.replicate 8 1) false 3 [] stC6b).state.waits = 1 ∧
    stC6b.read = stC6b.write ∧ (List.replicate 8 1).length + 8 = cfgC6.capacity := by
  refine ⟨?_, by norm_num, ?_, by norm_num [cfgC6], by decide, by decide, by decide,
    by decide, by decide, by decide, by decide⟩
  · rw [send0_zeroSized_of cfgC6 _ false 1 [] stC6a
      (by rw [List.length_replicate]; exact Nat.mod_self _)]
    rfl
  · rw [send0_eq_sendLoop cfgC6 _ false 1 [] stC6a
      (by rw [List.length_replicate]; norm_num)
      (by rw [List.length_replicate]; norm_num [cfgC6, Config.mapLen])]
    exact (sendLoop_notErr cfgC6 _ false 1 stC6a.write []
      { stC6a with locks := stC6a.locks + 1, wLoads := stC6a.wLoads + 1 }).2

/-- Claim C6 (amended): for every value whose serialized size `S`
satisfies `HEADER_SIZE + S + 8 < 2 ^ 32` (no 32-bit overflow in the size
check), `send` and `send_when_empty` fail with `ZeroSizedMessage` iff
`S == 0`, and fail with `MessageTooLarge` iff `S > 0` and
`S + 8 > capacity` (the zero-size check is made first); a value with
`S + 8 == capacity` is accepted and, when the channel is empty with both
cursors at `BEGINNING`, is written without any wait on the condition
variable. -/
theorem C6_amended_send_errors (cfg : Config) (p : List Nat) (wue : Bool)
    (fuel : Nat) (env : List (State → State)) (st : State)
    (h32 : cfg.beginning + p.length + 8 < 2 ^ 32) :
    ((send0 cfg p wue fuel env st).isZeroSized = true ↔ p.length = 0) ∧
    ((send0 cfg p wue fuel env st).isTooLarge = true ↔
      0 < p.length ∧ cfg.capacity < p.length + 8) ∧
    (0 < p.length → p.length + 8 = cfg.capacity → st.read = cfg.beginning →
      st.write = cfg.beginning → st.mem.length = cfg.mapLen →
      ∃ st', send0 cfg p wue (fuel + 1) [] st = SendOutcome.ok st' ∧
        st'.waits = st.waits) := by
  have hmod : p.length % 2 ^ 32 = p.length := Nat.mod_eq_of_lt (by omega)
  have harith : (cfg.beginning + p.length % 2 ^ 32 + 8) % 2 ^ 32 =
      cfg.beginning + p.length + 8 := by
    rw [hmod]
    exact Nat.mod_eq_of_lt h32
  refine ⟨?_, ?_, ?_⟩
  · by_cases hz : p.length = 0
    · rw [send0_zeroSized_of cfg p wue fuel env st (by omega)]
      simp [SendOutcome.isZeroSized, hz]
    · constructor
      · intro hiz
        exfalso
        by_cases htl : cfg.mapLen < (cfg.beginning + p.length % 2 ^ 32 + 8) % 2 ^ 32
        · rw [send0_tooLarge_of cfg p wue fuel env st (by omega) htl] at hiz
          simp [SendOutcome.isZeroSized] at hiz
        · rw [send0_eq_sendLoop cfg p wue fuel env st (by omega) htl] at hiz
          rw [(sendLoop_notErr cfg p wue fuel st.write env
            { st with locks := st.locks + 1, wLoads := st.wLoads + 1 }).1] at hiz
          simp at hiz
      · intro hc
        exact absurd hc hz
  · by_cases hz : p.length = 0
    · rw [send0_zeroSized_of cfg p wue fuel env st (by omega)]
      simp [SendOutcome.isTooLarge]
      omega
    · by_cases htl : cfg.capacity < p.length + 8
      · rw [send0_tooLarge_of cfg p wue fuel env st (by omega)
          (by rw [harith]; simp only [Config.mapLen]; omega)]
        simp [SendOutcome.isTooLarge]
        omega
      · rw [send0_eq_sendLoop cfg p wue fuel env st (by omega)
          (by rw [harith]; simp only [Config.mapLen]; omega)]
        rw [(sendLoop_notErr cfg p wue fuel st.write env
          { st with locks := st.locks + 1, wLoads := st.wLoads + 1 }).2]
        simp
        omega
  · intro hpos hcap hrd hwr hlen
    have h0 : p.length % 2 ^ 32 ≠ 0 := by omega
    have h1 : ¬ cfg.mapLen < (cfg.beginning + p.length % 2 ^ 32 + 8) % 2 ^ 32 := by
      rw [harith]
      simp only [Config.mapLen]
      omega
    rw [send0_eq_sendLoop cfg p wue (fuel + 1) [] st h0 h1]
    have hiter : sendIter cfg (p.length % 2 ^ 32) wue st.write
        { st with locks := st.locks + 1, wLoads := st.wLoads + 1 } =
        (IterAction.brk,
          { st with locks := st.locks + 1, wLoads := st.wLoads + 1,
                    rLoads := st.rLoads + 1 }) := by
      simp only [sendIter]
      rw [if_pos (Or.inl (show st.write = st.read by rw [hwr, hrd]))]
      rw [if_pos (show (st.write + p.length % 2 ^ 32 + 8) % 2 ^ 32 ≤ cfg.mapLen by
        rw [hwr, hmod, Nat.mod_eq_of_lt h32]
        simp only [Config.mapLen]
        omega)]
    have hloop : sendLoop cfg p wue (fuel + 1) st.write []
        { st with locks := st.locks + 1, wLoads := st.wLoads + 1 } =
        writeFrame p st.write
          { st with locks := st.locks + 1, wLoads := st.wLoads + 1,
                    rLoads := st.rLoads + 1 } := by
      simp only [sendLoop]
      rw [hiter]
    rw [hloop]
    simp only [writeFrame]
    have hst4 : (st.write + 4) % 2 ^ 32 = st.write + 4 := by
      rw [hwr]
      exact Nat.mod_eq_of_lt (by omega)
    rw [hst4]
    rw [sliceWrite_of st.mem (encodeU32 (p.length % 2 ^ 32)) st.write (st.write + 4)
      (by omega) (by rw [hwr, hlen]; simp only [Config.mapLen]; omega)
      (by rw [encodeU32_length]; omega)]
    dsimp only
    have he : (st.write + 4 + p.length % 2 ^ 32) % 2 ^ 32 = st.write + 4 + p.length := by
      rw [hwr, hmod]
      exact Nat.mod_eq_of_lt (by omega)
    rw [he]
    rw [sliceWrite_of (writeBytes st.mem st.write (encodeU32 (p.length % 2 ^ 32))) p
      (st.write + 4) (st.write + 4 + p.length) (by omega)
      (by rw [writeBytes_length, hwr, hlen]; simp only [Config.mapLen]; omega)
      (by omega)]
    exact ⟨_, rfl, rfl⟩

/-- Witness for the amended C6: on the fresh `cfgC6` channel an 8-byte
payload (so `S + 8 == capacity = 16`) is accepted and written without
waiting. -/
theorem C6_amended_send_errors_witness :
    ∃ st', send0 cfgC6 (List.replicate 8 1) false 1 [] stC6a = SendOutcome.ok st' ∧
      st'.waits = stC6a.waits :=
  (C6_amended_send_errors cfgC6 (List.replicate 8 1) false 0 [] stC6a
    (by decide)).2.2 (by decide) (by decide) (by decide) (by decide) (by decide)

/-- One sender-loop iteration preserves the cursor invariant. -/
theorem sendIter_inv (cfg : Config) (size : Nat) (wue : Bool) (w : Nat) (st : State)
    (hInv : ChanInv cfg st) : ChanInv cfg (sendIter cfg size wue w st).2 := by
  simp only [sendIter]
  by_cases hc : w = st.read ∨ (st.read < w ∧ wue = false)
  · rw [if_pos hc]
    by_cases hfit : (w + size + 8) % 2 ^ 32 ≤ cfg.mapLen
    · rw [if_pos hfit]; exact hInv
    · rw [if_neg hfit]
      by_cases hne : st.read ≠ cfg.beginning
      · rw [if_pos hne]
        by_cases hbw : cfg.beginning < w
        · rw [if_pos hbw]
          cases hsw : sliceWrite st.mem w ((w + 4) % 2 ^ 32) (encodeU32 0) with
          | none => exact hInv
          | some m =>
              obtain ⟨_, _, _, hm⟩ := sliceWrite_some hsw
              subst hm
              refine ⟨?_, hInv.2.1, hInv.2.2.1, le_refl _, ?_⟩
              · show (writeBytes st.mem w (encodeU32 0)).length = cfg.mapLen
                rw [writeBytes_length]; exact hInv.1
              · show cfg.beginning ≤ cfg.mapLen
                have h1 := hInv.2.1
                have h2 := hInv.2.2.1
                omega
        · rw [if_neg hbw]; exact hInv
      · rw [if_neg hne]; exact hInv
  · rw [if_neg hc]
    by_cases hgap : (w + size + 8) % 2 ^ 32 ≤ st.read ∧ wue = false
    · rw [if_pos hgap]; exact hInv
    · rw [if_neg hgap]; exact hInv

/-- Committing a frame preserves the cursor invariant (the slice guards
place the stored `write = end` inside the region, above `w`). -/
theorem writeFrame_inv (cfg : Config) (p : List Nat) (w : Nat) (st : State)
    (hInv : ChanInv cfg st) (hw : cfg.beginning ≤ w) :
    ChanInv cfg (writeFrame p w st).state := by
  simp only [writeFrame]
  cases h1 : sliceWrite st.mem w ((w + 4) % 2 ^ 32) (encodeU32 (p.length % 2 ^ 32)) with
  | none => exact hInv
  | some m1 =>
      dsimp only
      cases h2 : sliceWrite m1 ((w + 4) % 2 ^ 32)
          (((w + 4) % 2 ^ 32 + p.length % 2 ^ 32) % 2 ^ 32) p with
      | none =>
          obtain ⟨_, _, _, hm⟩ := sliceWrite_some h1
          subst hm
          refine ⟨?_, hInv.2.1, hInv.2.2.1, hInv.2.2.2.1, hInv.2.2.2.2⟩
          show (writeBytes st.mem w (encodeU32 (p.length % 2 ^ 32))).length = cfg.mapLen
          rw [writeBytes_length]; exact hInv.1
      | some m2 =>
          obtain ⟨ha1, hb1, _, hm1⟩ := sliceWrite_some h1
          obtain ⟨ha2, hb2, _, hm2⟩ := sliceWrite_some h2
          subst hm1
          subst hm2
          refine ⟨?_, hInv.2.1, hInv.2.2.1, ?_, ?_⟩
          · show (writeBytes (writeBytes st.mem w (encodeU32 (p.length % 2 ^ 32)))
              ((w + 4) % 2 ^ 32) p).length = cfg.mapLen
            rw [writeBytes_length, writeBytes_length]; exact hInv.1
          · show cfg.beginning ≤ ((w + 4) % 2 ^ 32 + p.length % 2 ^ 32) % 2 ^ 32
            omega
          · show ((w + 4) % 2 ^ 32 + p.length % 2 ^ 32) % 2 ^ 32 ≤ cfg.mapLen
            rw [writeBytes_length] at hb2
            have := hInv.1
            omega

/-- The reservation loop without interference preserves the cursor
invariant (for a local cursor at or above `BEGINNING`). -/
theorem sendLoop_inv (cfg : Config) (p : List Nat) (wue : Bool) :
    ∀ (fuel w : Nat) (st : State), ChanInv cfg st → cfg.beginning ≤ w →
      ChanInv cfg (sendLoop cfg p wue fuel w [] st).state := by
  intro fuel
  induction fuel with
  | zero => intro w st hInv _; exact hInv
  | succ fuel ih =>
      intro w st hInv hw
      simp only [sendLoop]
      cases hit : sendIter cfg (p.length % 2 ^ 32) wue w st with
      | mk a st1 =>
          have hInv1 : ChanInv cfg st1 := by
            have h := sendIter_inv cfg (p.length % 2 ^ 32) wue w st hInv
            rw [hit] at h
            exact h
          cases a with
          | brk => exact writeFrame_inv cfg p w st1 hInv1 hw
          | wrapped => exact ih cfg.beginning st1 hInv1 (le_refl _)
          | wait_ => exact hInv1
          | assertFail => exact hInv1
          | panic_ => exact hInv1

/-- `send_0` without interference preserves the cursor invariant,
whatever its outcome. -/
theorem send0_inv (cfg : Config) (p : List Nat) (wue : Bool) (fuel : Nat)
    (st : State) (hInv : ChanInv cfg st) :
    ChanInv cfg (send0 cfg p wue fuel [] st).state := by
  simp only [send0]
  by_cases h0 : p.length % 2 ^ 32 = 0
  · rw [if_pos h0]; exact hInv
  · rw [if_neg h0]
    by_cases h1 : cfg.mapLen < (cfg.beginning + p.length % 2 ^ 32 + 8) % 2 ^ 32
    · rw [if_pos h1]; exact hInv
    · rw [if_neg h1]
      exact sendLoop_inv cfg p wue fuel st.write
        { st with locks := st.locks + 1, wLoads := st.wLoads + 1 } hInv hInv.2.2.2.1

/-- `try_recv_0` preserves the cursor invariant. -/
theorem tryRecv0_inv (cfg : Config) (fuel : Nat) (st : State)
    (hInv : ChanInv cfg st) : ChanInv cfg (tryRecv0 cfg fuel st).state := by
  have hp := tryRecv0_pres cfg fuel st
  refine ⟨by rw [hp.2.1]; exact hInv.1, ?_, ?_, by rw [hp.1]; exact hInv.2.2.2.1,
    by rw [hp.1]; exact hInv.2.2.2.2⟩
  · rcases hp.2.2 with h | h
    · rw [h]; exact hInv.2.1
    · rw [h]
  · rcases hp.2.2 with h | h
    · rw [h]; exact hInv.2.2.1
    · rw [h]
      have h1 := hInv.2.1
      have h2 := hInv.2.2.1
      omega

/-- Copying `try_recv` preserves the cursor invariant: the stored
`read = next` lies in `[BEGINNING, mapLen]` by the decode guards. -/
theorem tryRecv_inv (cfg : Config) (fuel : Nat) (st : State)
    (hInv : ChanInv cfg st) : ChanInv cfg (tryRecv cfg fuel st).state := by
  cases h : tryRecv0 cfg fuel st with
  | msg v next st1 =>
      simp only [tryRecv, h, RecvOutcome.state, seekSt]
      have hi := tryRecv0_msg_inv h
      have hInv1 : ChanInv cfg st1 := by
        have h2 := tryRecv0_inv cfg fuel st hInv
        rw [h] at h2
        exact h2
      have hBr : cfg.beginning ≤ st1.read := by
        rcases hi.1 with h2 | h2
        · rw [h2]; exact hInv.2.1
        · rw [h2]
      refine ⟨hInv1.1, ?_, ?_, hInv1.2.2.2.1, hInv1.2.2.2.2⟩
      · show cfg.beginning ≤ next
        have h5 := hi.2.1
        omega
      · show next ≤ cfg.mapLen
        have h3 := hi.2.2.1
        have h4 := hInv.1
        omega
  | empty st1 =>
      simp only [tryRecv, h]
      have h2 := tryRecv0_inv cfg fuel st hInv
      rw [h] at h2
      exact h2
  | corrupt st1 =>
      simp only [tryRecv, h]
      have h2 := tryRecv0_inv cfg fuel st hInv
      rw [h] at h2
      exact h2
  | panic_ st1 =>
      simp only [tryRecv, h]
      have h2 := tryRecv0_inv cfg fuel st hInv
      rw [h] at h2
      exact h2
  | fuelOut st1 =>
      simp only [tryRecv, h]
      have h2 := tryRecv0_inv cfg fuel st hInv
      rw [h] at h2
      exact h2

/-- The deadline wait loop without interference only bumps counters. -/
theorem recvWait_nil (r : Nat) (st : State) :
    (recvWait r [] st).2.2 = { st with wLoads := st.wLoads + 1 } := by
  simp only [recvWait]
  by_cases h : r = st.write
  · rw [if_pos (by simpa using h)]
  · rw [if_neg (by simpa using h)]

/-- `recv_timeout_0` without interference: a successful decode satisfies
the seek bounds, and the final state keeps the invariant. -/
theorem recvTimeout0_msg_bounds (cfg : Config) :
    ∀ (fuel rfuel : Nat) (st : State) (v : List Nat) (next : Nat) (st1 : State),
      ChanInv cfg st →
      recvTimeout0 cfg fuel rfuel [] st = RecvOutcome.msg v next st1 →
      cfg.beginning < next ∧ next ≤ cfg.mapLen ∧ ChanInv cfg st1 := by
  intro fuel
  induction fuel with
  | zero => intro rfuel st v next st1 _ h; simp [recvTimeout0] at h
  | succ fuel ih =>
      intro rfuel st v next st1 hInv h
      simp only [recvTimeout0] at h
      cases htr : tryRecv0 cfg rfuel st with
      | msg v0 next0 st0 =>
          rw [htr] at h
          simp only [RecvOutcome.msg.injEq] at h
          obtain ⟨hv, hn, hst⟩ := h
          subst hv hn hst
          have hi := tryRecv0_msg_inv htr
          have hInv0 : ChanInv cfg st0 := by
            have h2 := tryRecv0_inv cfg rfuel st hInv
            rw [htr] at h2
            exact h2
          have hBr : cfg.beginning ≤ st0.read := by
            rcases hi.1 with h2 | h2
            · rw [h2]; exact hInv.2.1
            · rw [h2]
          refine ⟨by omega, ?_, hInv0⟩
          have h3 := hi.2.2.1
          have h4 := hInv.1
          omega
      | empty st0 =>
          rw [htr] at h
          have hInv0 : ChanInv cfg st0 := by
            have h2 := tryRecv0_inv cfg rfuel st hInv
            rw [htr] at h2
            exact h2
          simp only [recvWait] at h
          by_cases hc : st0.read = st0.write
          · rw [if_pos hc] at h
            dsimp only at h
            exact absurd h (by simp)
          · rw [if_neg hc] at h
            dsimp only at h
            refine ih rfuel _ v next st1 ?_ h
            exact hInv0
      | corrupt st0 => rw [htr] at h; simp at h
      | panic_ st0 => rw [htr] at h; simp at h
      | fuelOut st0 => rw [htr] at h; simp at h

/-- `recv_timeout_0` without interference preserves the cursor
invariant, whatever its outcome. -/
theorem recvTimeout0_inv (cfg : Config) :
    ∀ (fuel rfuel : Nat) (st : State), ChanInv cfg st →
      ChanInv cfg (recvTimeout0 cfg fuel rfuel [] st).state := by
  intro fuel
  induction fuel with
  | zero => intro rfuel st hInv; exact hInv
  | succ fuel ih =>
      intro rfuel st hInv
      simp only [recvTimeout0]
      cases htr : tryRecv0 cfg rfuel st with
      | msg v next st1 =>
          have h2 := tryRecv0_inv cfg rfuel st hInv
          rw [htr] at h2
          exact h2
      | empty st1 =>
          have hInv1 : ChanInv cfg st1 := by
            have h2 := tryRecv0_inv cfg rfuel st hInv
            rw [htr] at h2
            exact h2
          simp only [recvWait]
          by_cases hc : st1.read = st1.write
          · rw [if_pos hc]
            exact hInv1
          · rw [if_neg hc]
            exact ih rfuel _ hInv1
      | corrupt st1 =>
          have h2 := tryRecv0_inv cfg rfuel st hInv
          rw [htr] at h2
          exact h2
      | panic_ st1 =>
          have h2 := tryRecv0_inv cfg rfuel st hInv
          rw [htr] at h2
          exact h2
      | fuelOut st1 =>
          have h2 := tryRecv0_inv cfg rfuel st hInv
          rw [htr] at h2
          exact h2

/-- Copying `recv_timeout` without interference preserves the cursor
invariant. -/
theorem recvTimeout_inv (cfg : Config) (fuel rfuel : Nat) (st : State)
    (hInv : ChanInv cfg st) :
    ChanInv cfg (recvTimeout cfg fuel rfuel [] st).state := by
  cases h : recvTimeout0 cfg fuel rfuel [] st with
  | msg v next st1 =>
      simp only [recvTimeout, h, RecvOutcome.state, seekSt]
      have hb := recvTimeout0_msg_bounds cfg fuel rfuel st v next st1 hInv h
      refine ⟨hb.2.2.1, ?_, ?_, hb.2.2.2.2.2.1, hb.2.2.2.2.2.2⟩
      · show cfg.beginning ≤ next
        have h1 := hb.1
        omega
      · show next ≤ cfg.mapLen
        exact hb.2.1
  | empty st1 =>
      simp only [recvTimeout, h]
      have h2 := recvTimeout0_inv cfg fuel rfuel st hInv
      rw [h] at h2
      exact h2
  | corrupt st1 =>
      simp only [recvTimeout, h]
      have h2 := recvTimeout0_inv cfg fuel rfuel st hInv
      rw [h] at h2
      exact h2
  | panic_ st1 =>
      simp only [recvTimeout, h]
      have h2 := recvTimeout0_inv cfg fuel rfuel st hInv
      rw [h] at h2
      exact h2
  | fuelOut st1 =>
      simp only [recvTimeout, h]
      have h2 := recvTimeout0_inv cfg fuel rfuel st hInv
      rw [h] at h2
      exact h2

/-- Every reachable state satisfies the cursor invariant. -/
theorem reach_inv (cfg : Config) : ∀ (st : State), Reach cfg st → ChanInv cfg st := by
  intro st h
  induction h with
  | init =>
      refine ⟨?_, le_refl _, ?_, le_refl _, ?_⟩
      · exact List.length_replicate _ _
      · exact Nat.le_add_right _ _
      · exact Nat.le_add_right _ _
  | send st p wue fuel _ ih => exact send0_inv cfg p wue fuel st ih
  | recv st fuel _ ih => exact tryRecv_inv cfg fuel st ih
  | recvT st fuel rfuel _ ih => exact recvTimeout_inv cfg fuel rfuel st ih
  | zcRecv st fuel _ ih => exact tryRecv0_inv cfg fuel st ih
  | zcRelease st fuel v next st1 st2 _ htr _ ih ih2 =>
      have hi := tryRecv0_msg_inv htr
      have hBr : cfg.beginning ≤ st1.read := by
        rcases hi.1 with h2 | h2
        · rw [h2]; exact ih.2.1
        · rw [h2]
      refine ⟨ih2.1, ?_, ?_, ih2.2.2.2.1, ih2.2.2.2.2⟩
      · show cfg.beginning ≤ next
        have h1 := hi.2.1
        omega
      · show next ≤ cfg.mapLen
        have h1 := hi.2.2.1
        have h2 := ih.1
        omega

/-- Claim C8: both cursors are initialized to `BEGINNING`, and in every
state reachable by a sequence of send, receive, and zero-copy-release
operations both cursors lie in `[BEGINNING, HEADER_SIZE + capacity]`
(every store to a cursor preserves the bounds, by the induction over the
reachability relation). -/
theorem C8_cursor_invariant (cfg : Config) :
    (initState cfg).read = cfg.beginning ∧ (initState cfg).write = cfg.beginning ∧
    ∀ st : State, Reach cfg st →
      cfg.beginning ≤ st.read ∧ st.read ≤ cfg.mapLen ∧
      cfg.beginning ≤ st.write ∧ st.write ≤ cfg.mapLen := by
  refine ⟨rfl, rfl, ?_⟩
  intro st h
  have hInv := reach_inv cfg st h
  exact ⟨hInv.2.1, hInv.2.2.1, hInv.2.2.2.1, hInv.2.2.2.2⟩

/-- Witness for C8: the state after a fresh `[1, 2, 3]` send followed by
a copying receive on the example channel is reachable and its cursors are
within bounds. -/
theorem C8_cursor_invariant_witness :
    cfgEx.beginning ≤
        (tryRecv cfgEx 2 (send0 cfgEx [1, 2, 3] false 2 []
          (initState cfgEx)).state).state.read ∧
      (tryRecv cfgEx 2 (send0 cfgEx [1, 2, 3] false 2 []
          (initState cfgEx)).state).state.read ≤ cfgEx.mapLen ∧
      cfgEx.beginning ≤
        (tryRecv cfgEx 2 (send0 cfgEx [1, 2, 3] false 2 []
          (initState cfgEx)).state).state.write ∧
      (tryRecv cfgEx 2 (send0 cfgEx [1, 2, 3] false 2 []
          (initState cfgEx)).state).state.write ≤ cfgEx.mapLen :=
  (C8_cursor_invariant cfgEx).2.2 _
    (Reach.recv _ 2 (Reach.send (initState cfgEx) [1, 2, 3] false 2 Reach.init))

/-- Inversion of a successful frame commit: the slice guards force the
unwrapped offsets, so the frame occupies `[w, w + 4 + |p|)` inside the
region and `write` is stored as its end. -/
theorem writeFrame_ok {p : List Nat} {w : Nat} {st st' : State}
    (h : writeFrame p w st = SendOutcome.ok st') :
    (w + 4) % 2 ^ 32 = w + 4 ∧ w + 4 + p.length ≤ st.mem.length ∧
    st' = { st with
      mem := writeBytes (writeBytes st.mem w (encodeU32 (p.length % 2 ^ 32)))
        (w + 4) p,
      write := w + 4 + p.length, notifies := st.notifies + 1 } := by
  simp only [writeFrame] at h
  cases h1 : sliceWrite st.mem w ((w + 4) % 2 ^ 32) (encodeU32 (p.length % 2 ^ 32)) with
  | none => rw [h1] at h; simp at h
  | some m1 =>
      rw [h1] at h
      dsimp only at h
      cases h2 : sliceWrite m1 ((w + 4) % 2 ^ 32)
          (((w + 4) % 2 ^ 32 + p.length % 2 ^ 32) % 2 ^ 32) p with
      | none => rw [h2] at h; simp at h
      | some m2 =>
          rw [h2] at h
          dsimp only at h
          obtain ⟨ga, gb, gc, gm⟩ := sliceWrite_some h1
          rw [encodeU32_length] at gc
          have hs4 : (w + 4) % 2 ^ 32 = w + 4 := by omega
          obtain ⟨ha, hb, hc, hm⟩ := sliceWrite_some h2
          rw [hs4] at ha hb hc hm
          have he : (w + 4 + p.length % 2 ^ 32) % 2 ^ 32 = w + 4 + p.length := by
            omega
          rw [he] at hb
          subst gm
          subst hm
          rw [writeBytes_length] at hb
          rw [hs4, he] at h
          refine ⟨hs4, hb, ?_⟩
          injection h with h3
          exact h3.symm

/-- Decoding directly at a committed frame: one loop iteration returns
the payload and the post-frame offset, changing nothing. -/
theorem recvLoop_frame (cfg : Config) (w a fuel : Nat) (st : State) (p : List Nat)
    (hr : a + 4 + p.length ≤ st.mem.length)
    (h32 : a + 4 + p.length < 2 ^ 32)
    (hlpos : 0 < p.length) (hplen : p.length < 2 ^ 32)
    (hpref : readBytes st.mem a 4 = encodeU32 p.length)
    (hpay : readBytes st.mem (a + 4) p.length = p)
    (hw : w ≠ a) :
    recvLoop cfg w (fuel + 1) a st = RecvOutcome.msg p (a + 4 + p.length) st := by
  simp only [recvLoop]
  rw [if_pos hw]
  have hs4 : (a + 4) % 2 ^ 32 = a + 4 := Nat.mod_eq_of_lt (by omega)
  rw [hs4, sliceRead_of st.mem a (a + 4) (by omega) (by omega)]
  have h4 : a + 4 - a = 4 := by omega
  rw [h4, hpref]
  dsimp only
  rw [decodeU32_encodeU32 p.length hplen]
  rw [if_pos hlpos]
  have he : (a + 4 + p.length) % 2 ^ 32 = a + 4 + p.length := Nat.mod_eq_of_lt h32
  rw [he, sliceRead_of st.mem (a + 4) (a + 4 + p.length) (by omega) (by omega)]
  have h5 : a + 4 + p.length - (a + 4) = p.length := by omega
  rw [h5, hpay]

/-- Traversing a wrap sentinel: the iteration stores `read = BEGINNING`
under the lock, broadcasts, and continues at `BEGINNING` with the same
write snapshot. -/
theorem recvLoop_sentinel (cfg : Config) (w r fuel : Nat) (st : State)
    (hlt : w < r) (hr4 : r + 4 ≤ st.mem.length) (h32 : r + 4 < 2 ^ 32)
    (hsent : readBytes st.mem r 4 = encodeU32 0) :
    recvLoop cfg w (fuel + 1) r st =
      recvLoop cfg w fuel cfg.beginning
        { st with read := cfg.beginning, locks := st.locks + 1,
                  notifies := st.notifies + 1 } := by
  simp only [recvLoop]
  rw [if_pos (by omega : w ≠ r)]
  have hs4 : (r + 4) % 2 ^ 32 = r + 4 := Nat.mod_eq_of_lt h32
  rw [hs4, sliceRead_of st.mem r (r + 4) (by omega) hr4]
  have h4 : r + 4 - r = 4 := by omega
  rw [h4, hsent]
  dsimp only
  rw [decodeU32_encodeU32 0 (by norm_num)]
  rw [if_neg (by omega : ¬ (0 : Nat) < 0), if_pos hlt]

/-- Claim C1: from an empty channel, a completed default-mode send of a
value with serialized size `1 ≤ S ≤ capacity − 8` followed by a receive
yields the value back: the zero-copy decode returns exactly the payload
bytes sitting in the mapped region (bytewise equal to those sent), and
the copying `try_recv` returns the same value and advances `read` to the
post-frame offset. -/
theorem C1_round_trip (cfg : Config) (st : State) (p : List Nat) (fuel : Nat)
    (st' : State) (hwf : cfg.wf) (hInv : ChanInv cfg st)
    (hempty : st.read = st.write) (hpos : 1 ≤ p.length)
    (hsize : p.length + 8 ≤ cfg.capacity)
    (hsend : send0 cfg p false fuel [] st = SendOutcome.ok st') :
    ∃ next st1,
      tryRecv0 cfg 2 st' = RecvOutcome.msg p next st1 ∧
      tryRecv cfg 2 st' = RecvOutcome.msg p next (seekSt next st1) ∧
      zcTryRecv cfg 2 ⟨none⟩ st' = (ZcRes.got p, ⟨some next⟩, st1) ∧
      readBytes st1.mem (next - p.length) p.length = p := by
  have hwf2 : cfg.beginning + cfg.capacity < 2 ^ 32 := hwf.2
  have hlen32 : p.length < 2 ^ 32 := by omega
  have hmod : p.length % 2 ^ 32 = p.length := Nat.mod_eq_of_lt hlen32
  have h0 : p.length % 2 ^ 32 ≠ 0 := by omega
  have h1 : ¬ cfg.mapLen < (cfg.beginning + p.length % 2 ^ 32 + 8) % 2 ^ 32 := by
    rw [hmod, Nat.mod_eq_of_lt (by omega)]
    simp only [Config.mapLen]
    omega
  have hmlen : st.mem.length = cfg.mapLen := hInv.1
  have hqB : cfg.beginning ≤ st.read := hInv.2.1
  have hql : st.read ≤ cfg.mapLen := hInv.2.2.1
  have hmapLen : cfg.mapLen = cfg.beginning + cfg.capacity := rfl
  rw [send0_eq_sendLoop cfg p false fuel [] st h0 h1] at hsend
  cases fuel with
  | zero => simp [sendLoop] at hsend
  | succ fuel =>
      simp only [sendLoop] at hsend
      by_cases hfit : (st.write + p.length % 2 ^ 32 + 8) % 2 ^ 32 ≤ cfg.mapLen
      · have hiter : sendIter cfg (p.length % 2 ^ 32) false st.write { st with locks := st.locks + 1, wLoads := st.wLoads + 1 } = (IterAction.brk, { st with locks := st.locks + 1, wLoads := st.wLoads + 1, rLoads := st.rLoads + 1 }) := by
          simp only [sendIter]
          rw [if_pos (Or.inl hempty.symm), if_pos hfit]
        rw [hiter] at hsend
        dsimp only at hsend
        obtain ⟨hs4, hle, hst'⟩ := writeFrame_ok hsend
        have hle' : st.write + 4 + p.length ≤ st.mem.length := hle
        have hread : st'.read = st.read := by rw [hst']
        have hwrite : st'.write = st.write + 4 + p.length := by rw [hst']
        have hmemEq : st'.mem = writeBytes (writeBytes st.mem st.write (encodeU32 (p.length % 2 ^ 32))) (st.write + 4) p := by
          rw [hst']
        have hmlen' : st'.mem.length = st.mem.length := by
          rw [hmemEq, writeBytes_length, writeBytes_length]
        have hprefA : readBytes st'.mem st'.read 4 = encodeU32 p.length := by
          rw [hmemEq, hread, hempty, hmod]
          rw [readBytes_writeBytes_left 4 _ p st.write (st.write + 4) (le_refl _)]
          exact readBytes_writeBytes (encodeU32 p.length) st.mem st.write
            (by rw [encodeU32_length]; omega)
        have hpayA : readBytes st'.mem (st'.read + 4) p.length = p := by
          rw [hmemEq, hread, hempty, hmod]
          exact readBytes_writeBytes p _ (st.write + 4)
            (by rw [writeBytes_length]; omega)
        have hrec : tryRecv0 cfg 2 st' = RecvOutcome.msg p (st'.read + 4 + p.length) { st' with rLoads := st'.rLoads + 1, wLoads := st'.wLoads + 1 } := by
          show recvLoop cfg st'.write 2 st'.read { st' with rLoads := st'.rLoads + 1, wLoads := st'.wLoads + 1 } = _
          exact recvLoop_frame cfg st'.write st'.read 1 { st' with rLoads := st'.rLoads + 1, wLoads := st'.wLoads + 1 } p
            (by show st'.read + 4 + p.length ≤ st'.mem.length
                rw [hmlen', hread, hempty]
                omega)
            (by rw [hread, hempty]; omega)
            (by omega) hlen32 hprefA hpayA
            (by rw [hwrite, hread, hempty]; omega)
        refine ⟨st'.read + 4 + p.length, { st' with rLoads := st'.rLoads + 1, wLoads := st'.wLoads + 1 }, hrec, ?_, ?_, ?_⟩
        · simp only [tryRecv, hrec]
        · simp only [zcTryRecv, hrec]
        · rw [show st'.read + 4 + p.length - p.length = st'.read + 4 from by omega]
          exact hpayA
      · by_cases hne : st.read = cfg.beginning
        · have hiter : sendIter cfg (p.length % 2 ^ 32) false st.write { st with locks := st.locks + 1, wLoads := st.wLoads + 1 } = (IterAction.wait_, { st with locks := st.locks + 1, wLoads := st.wLoads + 1, rLoads := st.rLoads + 1 }) := by
            simp only [sendIter]
            rw [if_pos (Or.inl hempty.symm), if_neg hfit, if_neg (not_not_intro hne)]
          rw [hiter] at hsend
          dsimp only at hsend
          simp at hsend
        · have hBlt : cfg.beginning < st.read := by omega
          cases hsw : sliceWrite st.mem st.write ((st.write + 4) % 2 ^ 32) (encodeU32 0) with
          | none =>
              have hiter : sendIter cfg (p.length % 2 ^ 32) false st.write { st with locks := st.locks + 1, wLoads := st.wLoads + 1 } = (IterAction.panic_, { st with locks := st.locks + 1, wLoads := st.wLoads + 1, rLoads := st.rLoads + 1 }) := by
                simp only [sendIter]
                rw [if_pos (Or.inl hempty.symm), if_neg hfit, if_pos hne,
                  if_pos (show cfg.beginning < st.write by omega), hsw]
              rw [hiter] at hsend
              dsimp only at hsend
              simp at hsend
          | some m =>
              obtain ⟨ga, gb, gc, gm⟩ := sliceWrite_some hsw
              rw [encodeU32_length] at gc
              have hs4 : (st.write + 4) % 2 ^ 32 = st.write + 4 := by omega
              rw [hs4] at gb
              have hiter : sendIter cfg (p.length % 2 ^ 32) false st.write { st with locks := st.locks + 1, wLoads := st.wLoads + 1 } = (IterAction.wrapped, { st with locks := st.locks + 1, wLoads := st.wLoads + 1, rLoads := st.rLoads + 1, mem := m, write := cfg.beginning, notifies := st.notifies + 1 }) := by
                simp only [sendIter]
                rw [if_pos (Or.inl hempty.symm), if_neg hfit, if_pos hne,
                  if_pos (show cfg.beginning < st.write by omega), hsw]
              rw [hiter] at hsend
              dsimp only at hsend
              cases fuel with
              | zero => simp [sendLoop] at hsend
              | succ fuel2 =>
                  simp only [sendLoop] at hsend
                  by_cases hfit2 : (cfg.beginning + p.length % 2 ^ 32 + 8) % 2 ^ 32 ≤ st.read
                  · have hiter2 : sendIter cfg (p.length % 2 ^ 32) false cfg.beginning { st with locks := st.locks + 1, wLoads := st.wLoads + 1, rLoads := st.rLoads + 1, mem := m, write := cfg.beginning, notifies := st.notifies + 1 } = (IterAction.brk, { st with locks := st.locks + 1, wLoads := st.wLoads + 1, rLoads := st.rLoads + 2, mem := m, write := cfg.beginning, notifies := st.notifies + 1 }) := by
                      simp only [sendIter]
                      rw [if_neg (by simp only [not_or, not_and]; omega),
                        if_pos ⟨hfit2, trivial⟩]
                    rw [hiter2] at hsend
                    dsimp only at hsend
                    obtain ⟨hs4b, hleb, hst'⟩ := writeFrame_ok hsend
                    subst gm
                    have hleb' : cfg.beginning + 4 + p.length ≤ (writeBytes st.mem st.write (encodeU32 0)).length := hleb
                    rw [writeBytes_length] at hleb'
                    have hfit2' : cfg.beginning + p.length + 8 ≤ st.read := by
                      rw [hmod, Nat.mod_eq_of_lt (by omega)] at hfit2
                      exact hfit2
                    have hread : st'.read = st.read := by rw [hst']
                    have hwrite : st'.write = cfg.beginning + 4 + p.length := by
                      rw [hst']
                    have hmemEq : st'.mem = writeBytes (writeBytes (writeBytes st.mem st.write (encodeU32 0)) cfg.beginning (encodeU32 (p.length % 2 ^ 32))) (cfg.beginning + 4) p := by
                      rw [hst']
                    have hmlen' : st'.mem.length = st.mem.length := by
                      rw [hmemEq, writeBytes_length, writeBytes_length,
                        writeBytes_length]
                    have hsentF : readBytes st'.mem st'.read 4 = encodeU32 0 := by
                      rw [hmemEq, hread]
                      rw [readBytes_writeBytes_right 4 _ p st.read
                        (cfg.beginning + 4) (by omega)]
                      rw [readBytes_writeBytes_right 4 _
                        (encodeU32 (p.length % 2 ^ 32)) st.read cfg.beginning
                        (by rw [encodeU32_length]; omega)]
                      rw [hempty]
                      exact readBytes_writeBytes (encodeU32 0) st.mem st.write
                        (by rw [encodeU32_length]; omega)
                    have hprefB : readBytes st'.mem cfg.beginning 4 = encodeU32 p.length := by
                      rw [hmemEq, hmod]
                      rw [readBytes_writeBytes_left 4 _ p cfg.beginning
                        (cfg.beginning + 4) (le_refl _)]
                      exact readBytes_writeBytes (encodeU32 p.length) _ cfg.beginning
                        (by rw [encodeU32_length, writeBytes_length]; omega)
                    have hpayB : readBytes st'.mem (cfg.beginning + 4) p.length = p := by
                      rw [hmemEq, hmod]
                      exact readBytes_writeBytes p _ (cfg.beginning + 4)
                        (by rw [writeBytes_length, writeBytes_length]; omega)
                    have hrec : tryRecv0 cfg 2 st' = RecvOutcome.msg p (cfg.beginning + 4 + p.length) { st' with rLoads := st'.rLoads + 1, wLoads := st'.wLoads + 1, read := cfg.beginning, locks := st'.locks + 1, notifies := st'.notifies + 1 } := by
                      show recvLoop cfg st'.write 2 st'.read { st' with rLoads := st'.rLoads + 1, wLoads := st'.wLoads + 1 } = _
                      rw [recvLoop_sentinel cfg st'.write st'.read 1 _
                        (by rw [hwrite, hread]; omega)
                        (by show st'.read + 4 ≤ st'.mem.length
                            rw [hmlen', hread, hempty]
                            omega)
                        (by rw [hread]; omega)
                        (by show readBytes st'.mem st'.read 4 = encodeU32 0
                            exact hsentF)]
                      exact recvLoop_frame cfg st'.write cfg.beginning 0 _ p
                        (by show cfg.beginning + 4 + p.length ≤ st'.mem.length
                            rw [hmlen']
                            omega)
                        (by omega) (by omega) hlen32
                        (by show readBytes st'.mem cfg.beginning 4 = encodeU32 p.length
                            exact hprefB)
                        (by show readBytes st'.mem (cfg.beginning + 4) p.length = p
                            exact hpayB)
                        (by rw [hwrite]; omega)
                    refine ⟨cfg.beginning + 4 + p.length, { st' with rLoads := st'.rLoads + 1, wLoads := st'.wLoads + 1, read := cfg.beginning, locks := st'.locks + 1, notifies := st'.notifies + 1 }, hrec, ?_, ?_, ?_⟩
                    · simp only [tryRecv, hrec]
                    · simp only [zcTryRecv, hrec]
                    · rw [show cfg.beginning + 4 + p.length - p.length = cfg.beginning + 4 from by omega]
                      exact hpayB
                  · have hiter2 : sendIter cfg (p.length % 2 ^ 32) false cfg.beginning { st with locks := st.locks + 1, wLoads := st.wLoads + 1, rLoads := st.rLoads + 1, mem := m, write := cfg.beginning, notifies := st.notifies + 1 } = (IterAction.wait_, { st with locks := st.locks + 1, wLoads := st.wLoads + 1, rLoads := st.rLoads + 2, mem := m, write := cfg.beginning, notifies := st.notifies + 1 }) := by
                      simp only [sendIter]
                      rw [if_neg (by simp only [not_or, not_and]; omega),
                        if_neg (by simp only [and_true]; exact hfit2)]
                    rw [hiter2] at hsend
                    dsimp only at hsend
                    simp at hsend

/-- Witness for C1: the fresh example channel round-trips `[1, 2, 3]`. -/
theorem C1_round_trip_witness :
    ∃ next st1,
      tryRecv0 cfgEx 2
          (send0 cfgEx [1, 2, 3] false 2 [] (initState cfgEx)).state =
        RecvOutcome.msg [1, 2, 3] next st1 ∧
      tryRecv cfgEx 2
          (send0 cfgEx [1, 2, 3] false 2 [] (initState cfgEx)).state =
        RecvOutcome.msg [1, 2, 3] next (seekSt next st1) ∧
      zcTryRecv cfgEx 2 ⟨none⟩
          (send0 cfgEx [1, 2, 3] false 2 [] (initState cfgEx)).state =
        (ZcRes.got [1, 2, 3], ⟨some next⟩, st1) ∧
      readBytes st1.mem (next - 3) 3 = [1, 2, 3] :=
  C1_round_trip cfgEx (initState cfgEx) [1, 2, 3] 2
    (send0 cfgEx [1, 2, 3] false 2 [] (initState cfgEx)).state
    (by constructor <;> decide) (by simp only [ChanInv]; decide) (by decide)
    (by decide) (by decide) (by decide)

end Ipmpsc
